import Mathlib

/-!
# Verification of the `esm` package-configuration and compile-cache core

Shallow embedding of `src/package.js` (the `Package` class: option merging,
project-configuration resolution, cache loading) and of the compiler dispatch
file (`Compiler.compile`, `compileAndWrite`, `removeExpired`), together with
proofs about the behaviour the specification describes.

JavaScript values are modelled by the inductive type `JSValue`; machine
integers do not occur in the modelled code paths, and numbers are carried as
`Int`.  Fallible operations return `Except`/`Option`.  Filesystem state is
passed explicitly.
-/

/-- A JavaScript value, as far as the modelled code observes it. -/
inductive JSValue where
  | undef
  | vnull
  | bool (b : Bool)
  | num (n : Int)
  | str (s : String)
  | arr (elems : List JSValue)
  | obj (fields : List (String × JSValue))
deriving Repr, Inhabited

mutual

/-- Decidable equality of `JSValue` (hand-rolled: the inductive nests lists). -/
def JSValue.decEq : (a b : JSValue) → Decidable (a = b)
  | .undef, .undef => isTrue rfl
  | .undef, .vnull => isFalse nofun
  | .undef, .bool _ => isFalse nofun
  | .undef, .num _ => isFalse nofun
  | .undef, .str _ => isFalse nofun
  | .undef, .arr _ => isFalse nofun
  | .undef, .obj _ => isFalse nofun
  | .vnull, .undef => isFalse nofun
  | .vnull, .vnull => isTrue rfl
  | .vnull, .bool _ => isFalse nofun
  | .vnull, .num _ => isFalse nofun
  | .vnull, .str _ => isFalse nofun
  | .vnull, .arr _ => isFalse nofun
  | .vnull, .obj _ => isFalse nofun
  | .bool _, .undef => isFalse nofun
  | .bool _, .vnull => isFalse nofun
  | .bool a, .bool b =>
      if h : a = b then isTrue (by rw [h]) else isFalse (fun he => h (by injection he))
  | .bool _, .num _ => isFalse nofun
  | .bool _, .str _ => isFalse nofun
  | .bool _, .arr _ => isFalse nofun
  | .bool _, .obj _ => isFalse nofun
  | .num _, .undef => isFalse nofun
  | .num _, .vnull => isFalse nofun
  | .num _, .bool _ => isFalse nofun
  | .num a, .num b =>
      if h : a = b then isTrue (by rw [h]) else isFalse (fun he => h (by injection he))
  | .num _, .str _ => isFalse nofun
  | .num _, .arr _ => isFalse nofun
  | .num _, .obj _ => isFalse nofun
  | .str _, .undef => isFalse nofun
  | .str _, .vnull => isFalse nofun
  | .str _, .bool _ => isFalse nofun
  | .str _, .num _ => isFalse nofun
  | .str a, .str b =>
      if h : a = b then isTrue (by rw [h]) else isFalse (fun he => h (by injection he))
  | .str _, .arr _ => isFalse nofun
  | .str _, .obj _ => isFalse nofun
  | .arr _, .undef => isFalse nofun
  | .arr _, .vnull => isFalse nofun
  | .arr _, .bool _ => isFalse nofun
  | .arr _, .num _ => isFalse nofun
  | .arr _, .str _ => isFalse nofun
  | .arr a, .arr b =>
      match JSValue.decEqList a b with
      | isTrue h => isTrue (by rw [h])
      | isFalse h => isFalse (fun he => h (by injection he))
  | .arr _, .obj _ => isFalse nofun
  | .obj _, .undef => isFalse nofun
  | .obj _, .vnull => isFalse nofun
  | .obj _, .bool _ => isFalse nofun
  | .obj _, .num _ => isFalse nofun
  | .obj _, .str _ => isFalse nofun
  | .obj _, .arr _ => isFalse nofun
  | .obj a, .obj b =>
      match JSValue.decEqFields a b with
      | isTrue h => isTrue (by rw [h])
      | isFalse h => isFalse (fun he => h (by injection he))

/-- Decidable equality of `JSValue` lists. -/
def JSValue.decEqList : (a b : List JSValue) → Decidable (a = b)
  | [], [] => isTrue rfl
  | [], _ :: _ => isFalse nofun
  | _ :: _, [] => isFalse nofun
  | x :: xs, y :: ys =>
      match JSValue.decEq x y with
      | isTrue h1 =>
        match JSValue.decEqList xs ys with
        | isTrue h2 => isTrue (by rw [h1, h2])
        | isFalse h2 => isFalse (fun he => h2 (by injection he))
      | isFalse h1 => isFalse (fun he => h1 (by injection he))

/-- Decidable equality of `JSValue` field lists. -/
def JSValue.decEqFields : (a b : List (String × JSValue)) → Decidable (a = b)
  | [], [] => isTrue rfl
  | [], _ :: _ => isFalse nofun
  | _ :: _, [] => isFalse nofun
  | (k, x) :: xs, (l, y) :: ys =>
      if hk : k = l then
        match JSValue.decEq x y with
        | isTrue h1 =>
          match JSValue.decEqFields xs ys with
          | isTrue h2 => isTrue (by rw [hk, h1, h2])
          | isFalse h2 => isFalse (fun he => h2 (by injection he))
        | isFalse h1 =>
          isFalse (fun he => by
            injection he with hh ht
            exact h1 (by injection hh))
      else
        isFalse (fun he => by
          injection he with hh ht
          exact hk (by injection hh))

end

instance : DecidableEq JSValue := JSValue.decEq

deriving instance DecidableEq for Except

namespace JSValue

/-- JavaScript truthiness (`!!v`).  `undefined`, `null`, `false`, `0` and the
empty string are falsy; everything else is truthy. -/
def truthy : JSValue → Bool
  | .undef => false
  | .vnull => false
  | .bool b => b
  | .num n => decide (n ≠ 0)
  | .str s => decide (s ≠ "")
  | .arr _ => true
  | .obj _ => true

/-- `util/keys.js`: `Object.keys` for object-likes, `[]` otherwise.  For an
array the keys are the decimal index strings. -/
def jkeys : JSValue → List String
  | .obj fields => fields.map (fun e => e.1)
  | .arr elems => (List.range elems.length).map (fun i => toString i)
  | _ => []

/-- Decimal parse used for array indexing by property name. -/
def decIndex (s : String) (n : Nat) : Option Nat :=
  if s = toString n then some n else none

/-- Property read `v[name]`; `undefined` when absent or on a primitive. -/
def jget : JSValue → String → JSValue
  | .obj fields, name =>
      match fields.find? (fun e => e.1 = name) with
      | some e => e.2
      | none => .undef
  | .arr elems, name =>
      match (List.range elems.length).find? (fun i => s!"{i}" = name) with
      | some i => elems.getD i .undef
      | none => .undef
  | _, _ => (.undef)

/-- `util/has.js`: own-property test (safe on primitives, `null` and
`undefined`). -/
def jhas (v : JSValue) (name : String) : Bool :=
  match v with
  | .obj fields => fields.any (fun e => e.1 = name)
  | .arr elems => ((List.range elems.length).find? (fun i => s!"{i}" = name)).isSome
  | _ => false

/-- `util/is-object-like.js`: objects and arrays (functions do not occur in the
model). -/
def isObjectLike : JSValue → Bool
  | .obj _ => true
  | .arr _ => true
  | _ => false

end JSValue

/-- Assignment `o[name] = v` on an object field list: overwrite in place when
the key exists (JavaScript keeps the original insertion position), append
otherwise. -/
def oset (fields : List (String × JSValue)) (name : String) (v : JSValue) :
    List (String × JSValue) :=
  if fields.any (fun e => e.1 = name) then
    fields.map (fun e => if e.1 = name then (name, v) else e)
  else
    fields ++ [(name, v)]

/-- Errors raised by option validation: `ERR_UNKNOWN_ESM_OPTION` and
`ERR_INVALID_ESM_OPTION`. -/
inductive OptErr where
  | unknownOption (key : String)
  | invalidOption (key : String) (value : JSValue)
deriving Repr, DecidableEq

/-- The `cjs` toggle group, fully defaulted (every field is a boolean after
`createCJS`). -/
structure CJSOptions where
  cache : Bool
  extensions : Bool
  interop : Bool
  mutableNamespace : Bool
  namedExports : Bool
  paths : Bool
  topLevelReturn : Bool
  vars : Bool
deriving Repr, DecidableEq, Inhabited

/-- `defaultOptions.cjs`: every toggle off. -/
def defaultCJS : CJSOptions :=
  ⟨false, false, false, false, false, false, false, false⟩

/-- `autoOptions.cjs`: every toggle on except `topLevelReturn`. -/
def autoCJS : CJSOptions :=
  ⟨true, true, true, true, true, true, false, true⟩

/-- The key set of `defaultOptions.cjs`, in declaration order. -/
def cjsKeys : List String :=
  ["cache", "extensions", "interop", "mutableNamespace", "namedExports",
   "paths", "topLevelReturn", "vars"]

/-- The property names of `Object.prototype`.  The known-key tests in
`createOptions` and `createCJS` use `Reflect.has`, i.e. the `in` operator,
which walks the prototype chain of the plain object literals `defaultOptions`
and `defaultOptions.cjs`; these inherited names therefore pass the test. -/
def objectProtoKeys : List String :=
  ["constructor", "hasOwnProperty", "isPrototypeOf", "propertyIsEnumerable",
   "toLocaleString", "toString", "valueOf", "__defineGetter__",
   "__defineSetter__", "__lookupGetter__", "__lookupSetter__", "__proto__"]

/-- `util/to-string-literal.js` as used in the `cjs` unknown-key error
message: quote the name. -/
def toStringLiteral (s : String) : String := "\"" ++ s ++ "\""

/-- The `cjs` group of `autoOptions` as a JavaScript object (the value stored
into `options.cjs` when the caller did not supply one). -/
def autoCJSValue : JSValue :=
  .obj [("cache", .bool true), ("extensions", .bool true),
        ("interop", .bool true), ("mutableNamespace", .bool true),
        ("namedExports", .bool true), ("paths", .bool true),
        ("topLevelReturn", .bool false), ("vars", .bool true)]

/-- A `CJSOptions` record rendered back to the JavaScript object the code
produces (keys in the declaration order of `defaultOptions.cjs`). -/
def CJSOptions.toJSValue (c : CJSOptions) : JSValue :=
  .obj [("cache", .bool c.cache), ("extensions", .bool c.extensions),
        ("interop", .bool c.interop),
        ("mutableNamespace", .bool c.mutableNamespace),
        ("namedExports", .bool c.namedExports), ("paths", .bool c.paths),
        ("topLevelReturn", .bool c.topLevelReturn), ("vars", .bool c.vars)]

/-- One step of the key scan inside `createCJS`: `Reflect.has(defaultCJS,
name)` accepts the eight toggles and every name inherited from
`Object.prototype` (whose coerced value lands outside the toggle set and is
never read back); any other key raises
`ERR_UNKNOWN_ESM_OPTION("cjs[...]")`. -/
def scanCJSKey (name : String) : Except OptErr Unit :=
  if cjsKeys.contains name || objectProtoKeys.contains name then .ok ()
  else .error (.unknownOption ("cjs[" ++ toStringLiteral name ++ "]"))

/-- Key check loop of `createCJS` over `keys(value)`. -/
def scanCJSKeys : List String → Except OptErr Unit
  | [] => .ok ()
  | name :: rest => do
      let _ ← scanCJSKey name
      scanCJSKeys rest

/-- `createCJS(value)` from `src/package.js`: `undefined` yields the defaults,
an object-like value is validated key-by-key, coerced to booleans and merged
over the group defaults, and any other value is broadcast (as a boolean) to
every toggle. -/
def createCJS (value : JSValue) : Except OptErr CJSOptions :=
  match value with
  | .undef => .ok defaultCJS
  | v =>
    if v.isObjectLike then do
      let _ ← scanCJSKeys v.jkeys
      let pick (name : String) (dflt : Bool) : Bool :=
        if (v.jkeys).contains name then (v.jget name).truthy else dflt
      .ok { cache := pick "cache" defaultCJS.cache,
            extensions := pick "extensions" defaultCJS.extensions,
            interop := pick "interop" defaultCJS.interop,
            mutableNamespace := pick "mutableNamespace" defaultCJS.mutableNamespace,
            namedExports := pick "namedExports" defaultCJS.namedExports,
            paths := pick "paths" defaultCJS.paths,
            topLevelReturn := pick "topLevelReturn" defaultCJS.topLevelReturn,
            vars := pick "vars" defaultCJS.vars }
    else
      let b := v.truthy
      .ok ⟨b, b, b, b, b, b, b, b⟩

/-- Keys of `defaultOptions`, i.e. the closed top-level option schema. -/
def knownOptionKeys : List String :=
  ["await", "cache", "cjs", "debug", "mainFields", "mode", "sourceMap",
   "warnings"]

/-- Modelled from the spec: `constant/package.js` is not under `src/`; the
spec's options schema (§6) gives `mode` as the closed enum `all|auto|strict`,
so the three `OPTIONS_MODE_*` constants are modelled as those strings. -/
def OPTIONS_MODE_ALL : String := "all"

/-- Modelled from the spec: see `OPTIONS_MODE_ALL`. -/
def OPTIONS_MODE_AUTO : String := "auto"

/-- Modelled from the spec: see `OPTIONS_MODE_ALL`. -/
def OPTIONS_MODE_STRICT : String := "strict"

/-- Modelled from the spec: `constant/package.js` is not under `src/`; the
spec calls this the "all-versions sentinel" gating range. -/
def RANGE_ALL : String := "*"

/-- The partially-filled options object built by the key scan of
`createOptions`.  Only schema keys can ever be written, so the intermediate
object is represented with one optional slot per key (`none` = key absent,
`some .undef` = key present with value `undefined`). -/
structure RawOptions where
  rawAwait : Option JSValue := none
  rawCache : Option JSValue := none
  rawCjs : Option JSValue := none
  rawDebug : Option JSValue := none
  rawMainFields : Option JSValue := none
  rawMode : Option JSValue := none
  rawSourceMap : Option JSValue := none
  rawWarnings : Option JSValue := none
deriving Repr, DecidableEq

/-- One iteration of the `possibleNames` loop of `createOptions`: copy a key
passing `Reflect.has(defaultOptions, name)` — a schema key into its slot, a
name inherited from `Object.prototype` into a slot outside the schema that no
later step reads back — accept the legacy `sourcemap` alias only when
`sourceMap` is absent from the supplied record (coercing to boolean, and
ignoring an `undefined` alias value), and raise `ERR_UNKNOWN_ESM_OPTION`
otherwise. -/
def scanOptionKey (value : JSValue) (acc : RawOptions) (name : String) :
    Except OptErr RawOptions :=
  if name = "await" then .ok { acc with rawAwait := some (value.jget name) }
  else if name = "cache" then .ok { acc with rawCache := some (value.jget name) }
  else if name = "cjs" then .ok { acc with rawCjs := some (value.jget name) }
  else if name = "debug" then .ok { acc with rawDebug := some (value.jget name) }
  else if name = "mainFields" then
    .ok { acc with rawMainFields := some (value.jget name) }
  else if name = "mode" then .ok { acc with rawMode := some (value.jget name) }
  else if name = "sourceMap" then
    .ok { acc with rawSourceMap := some (value.jget name) }
  else if name = "warnings" then
    .ok { acc with rawWarnings := some (value.jget name) }
  else if objectProtoKeys.contains name then .ok acc
  else if name = "sourcemap" then
    if (value.jkeys).contains "sourceMap" then .error (.unknownOption name)
    else if value.jget "sourcemap" = .undef then .ok acc
    else .ok { acc with rawSourceMap := some (.bool (value.jget "sourcemap").truthy) }
  else .error (.unknownOption name)

/-- The `possibleNames` loop of `createOptions`. -/
def scanOptionKeys (value : JSValue) : List String → RawOptions →
    Except OptErr RawOptions
  | [], acc => .ok acc
  | name :: rest, acc => do
      let acc' ← scanOptionKey value acc name
      scanOptionKeys value rest acc'

/-- `util/defaults.js` on one slot, modelled from the spec: a default fills a
key whose current value is `undefined` (covering both an absent key and an
explicitly `undefined` one). -/
def fillDefault (slot : Option JSValue) (dflt : JSValue) : JSValue :=
  match slot with
  | some v => if v = .undef then dflt else v
  | none => dflt

/-- The fully validated, fully defaulted options record produced by
`createOptions`.  `mode` holds one of the three `OPTIONS_MODE_*` constants;
`cache` is a string or a boolean; `await` and `sourceMap` keep the raw
supplied value (`await` is never coerced by the code). -/
structure Options where
  await : JSValue
  cache : JSValue
  cjs : CJSOptions
  debug : Bool
  mainFields : List JSValue
  mode : String
  sourceMap : JSValue
  warnings : Bool
deriving Repr, DecidableEq, Inhabited

/-- `typeof v === "string"`. -/
def JSValue.isString : JSValue → Bool
  | .str _ => true
  | _ => false

/-- The `autoOptions` injection of `createOptions`: when `cjs` or `mode` was
not supplied by the caller, the corresponding `autoOptions` entry is written
before defaulting (the "be lenient when the user expresses no opinion"
baseline). -/
def adjustRaw (raw0 : RawOptions) : RawOptions :=
  let raw1 := if raw0.rawCjs = none then { raw0 with rawCjs := some autoCJSValue } else raw0
  if raw1.rawMode = none then { raw1 with rawMode := some (.str "auto") } else raw1

/-- The `mainFields` validation of `createOptions`: an array is copied, a
string is wrapped in a singleton, anything else raises
`ERR_INVALID_ESM_OPTION`. -/
def validateMainFields : JSValue → Except OptErr (List JSValue)
  | .arr xs => .ok xs
  | .str s => .ok [JSValue.str s]
  | mf => .error (.invalidOption "mainFields" mf)

/-- The `mode` validation of `createOptions`: only the three enum strings are
accepted, and they are replaced by the `OPTIONS_MODE_*` constants. -/
def validateMode (modeV : JSValue) : Except OptErr String :=
  if modeV = .str "all" then .ok OPTIONS_MODE_ALL
  else if modeV = .str "auto" then .ok OPTIONS_MODE_AUTO
  else if modeV = .str "strict" then .ok OPTIONS_MODE_STRICT
  else .error (.invalidOption "mode" modeV)

/-- The `cache` coercion of `createOptions`: a non-string value is collapsed
to its truthiness. -/
def coerceCache (cacheV : JSValue) : JSValue :=
  if cacheV.isString then cacheV else .bool cacheV.truthy

/-- The tail of `createOptions` after the key scan and the `autoOptions`
injection: build the `cjs` group, fill the remaining defaults, and validate
`mainFields` and `mode`. -/
def buildOptions (dev : Bool) (raw : RawOptions) : Except OptErr Options := do
  let cjsOptions ← createCJS ((raw.rawCjs).getD .undef)
  let awaitV := fillDefault raw.rawAwait (.bool false)
  let cacheV := fillDefault raw.rawCache (.bool true)
  let debugV := fillDefault raw.rawDebug (.bool false)
  let mainFieldsV := fillDefault raw.rawMainFields (.arr [.str "main"])
  let modeV := fillDefault raw.rawMode (.str "strict")
  let sourceMapV := fillDefault raw.rawSourceMap .undef
  let warningsV := fillDefault raw.rawWarnings (.bool dev)
  let mainFields ← validateMainFields mainFieldsV
  let mode ← validateMode modeV
  .ok { await := awaitV, cache := coerceCache cacheV, cjs := cjsOptions,
        debug := debugV.truthy, mainFields := mainFields, mode := mode,
        sourceMap := sourceMapV, warnings := warningsV.truthy }

/-- `createOptions(value)` from `src/package.js`.  `dev` is the captured
`ENV.DEVELOPMENT` flag (the default of `warnings`). -/
def createOptions (dev : Bool) (value : JSValue) : Except OptErr Options :=
  (match value with
    | .str s => Except.ok { rawMode := some (.str s) : RawOptions }
    | v => scanOptionKeys v v.jkeys {}) >>= fun raw =>
  buildOptions dev (adjustRaw raw)

/-- The options record rendered back to the plain JavaScript object the code
returns (it carries exactly the eight schema keys). -/
def Options.toJSValue (o : Options) : JSValue :=
  .obj [("await", o.await), ("cache", o.cache), ("cjs", o.cjs.toJSValue),
        ("debug", .bool o.debug), ("mainFields", .arr o.mainFields),
        ("mode", .str o.mode), ("sourceMap", o.sourceMap),
        ("warnings", .bool o.warnings)]

/-! ## Lemmas about the option key scan -/

@[simp] lemma exceptBind_ok {ε α β : Type} (a : α) (f : α → Except ε β) :
    (Except.ok a >>= f) = f a := rfl

@[simp] lemma exceptBind_error {ε α β : Type} (e : ε) (f : α → Except ε β) :
    ((Except.error e : Except ε α) >>= f) = .error e := rfl

lemma mem_knownOptionKeys_iff (k : String) :
    k ∈ knownOptionKeys ↔
      k = "await" ∨ k = "cache" ∨ k = "cjs" ∨ k = "debug" ∨ k = "mainFields" ∨
      k = "mode" ∨ k = "sourceMap" ∨ k = "warnings" := by
  simp [knownOptionKeys]

lemma scanOptionKey_unknown (v : JSValue) (acc : RawOptions) (k : String)
    (h1 : k ∉ knownOptionKeys) (h2 : k ≠ "sourcemap")
    (h3 : k ∉ objectProtoKeys) :
    scanOptionKey v acc k = .error (.unknownOption k) := by
  rw [mem_knownOptionKeys_iff] at h1
  push_neg at h1
  obtain ⟨n1, n2, n3, n4, n5, n6, n7, n8⟩ := h1
  simp [scanOptionKey, n1, n2, n3, n4, n5, n6, n7, n8, h2, h3]

lemma scanOptionKey_known (v : JSValue) (acc : RawOptions) (k : String)
    (h : k ∈ knownOptionKeys) : ∃ acc', scanOptionKey v acc k = .ok acc' := by
  rw [mem_knownOptionKeys_iff] at h
  rcases h with rfl | rfl | rfl | rfl | rfl | rfl | rfl | rfl <;> exact ⟨_, rfl⟩

lemma scanOptionKeys_cons_ok (v : JSValue) (n : String) (rest : List String)
    (acc raw : RawOptions) (h : scanOptionKeys v (n :: rest) acc = .ok raw) :
    ∃ acc', scanOptionKey v acc n = .ok acc' ∧ scanOptionKeys v rest acc' = .ok raw := by
  cases hstep : scanOptionKey v acc n with
  | error e => simp [scanOptionKeys, hstep] at h
  | ok acc' =>
      refine ⟨acc', rfl, ?_⟩
      simpa [scanOptionKeys, hstep] using h

lemma scanOptionKeys_error_first (v : JSValue) (names : List String)
    (k : String) (h1 : k ∉ knownOptionKeys) (h2 : k ≠ "sourcemap")
    (h3 : k ∉ objectProtoKeys) :
    ∀ (acc : RawOptions), k ∈ names →
      (∀ j ∈ names, j ≠ k → j ∈ knownOptionKeys) →
      scanOptionKeys v names acc = .error (.unknownOption k) := by
  induction names with
  | nil => intro acc hk; cases hk
  | cons n rest ih =>
      intro acc hk hothers
      by_cases hn : n = k
      · subst hn
        simp [scanOptionKeys, scanOptionKey_unknown v acc n h1 h2 h3]
      · have hknown : n ∈ knownOptionKeys := hothers n (List.mem_cons_self _ _) hn
        obtain ⟨acc', hstep⟩ := scanOptionKey_known v acc n hknown
        have hk' : k ∈ rest := by
          rcases List.mem_cons.mp hk with h | h
          · exact absurd h.symm hn
          · exact h
        simp [scanOptionKeys, hstep,
          ih acc' hk' (fun j hj hjk => hothers j (List.mem_cons_of_mem _ hj) hjk)]

lemma scanOptionKeys_alias_error (v : JSValue) (names : List String)
    (hSM : (v.jkeys).contains "sourceMap" = true) :
    ∀ (acc : RawOptions), "sourcemap" ∈ names →
      (∀ j ∈ names, j ∈ knownOptionKeys ∨ j = "sourcemap") →
      scanOptionKeys v names acc = .error (.unknownOption "sourcemap") := by
  induction names with
  | nil => intro acc hk; cases hk
  | cons n rest ih =>
      intro acc hk hall
      by_cases hn : n = "sourcemap"
      · subst hn
        have hSM' : "sourceMap" ∈ v.jkeys := by simpa using hSM
        have hproto : "sourcemap" ∉ objectProtoKeys := by decide
        simp [scanOptionKeys, scanOptionKey, hSM', hproto]
      · have hknown : n ∈ knownOptionKeys := by
          rcases hall n (List.mem_cons_self _ _) with h | h
          · exact h
          · exact absurd h hn
        obtain ⟨acc', hstep⟩ := scanOptionKey_known v acc n hknown
        have hk' : "sourcemap" ∈ rest := by
          rcases List.mem_cons.mp hk with h | h
          · exact absurd h.symm hn
          · exact h
        simp [scanOptionKeys, hstep,
          ih acc' hk' (fun j hj => hall j (List.mem_cons_of_mem _ hj))]

lemma scanOptionKey_preserves_sourceMap (v : JSValue) (acc acc' : RawOptions)
    (n : String) (h : scanOptionKey v acc n = .ok acc')
    (hn1 : n ≠ "sourceMap") (hn2 : n ≠ "sourcemap") :
    acc'.rawSourceMap = acc.rawSourceMap := by
  simp only [scanOptionKey, hn1, hn2, if_false] at h
  split_ifs at h <;>
    first
      | exact Except.noConfusion h
      | (injection h with h; rw [← h])

lemma scanOptionKey_sourcemap_set (v : JSValue) (acc acc' : RawOptions)
    (h : scanOptionKey v acc "sourcemap" = .ok acc')
    (hval : v.jget "sourcemap" ≠ .undef) :
    acc' = { acc with rawSourceMap := some (.bool (v.jget "sourcemap").truthy) } := by
  have hred : scanOptionKey v acc "sourcemap" =
      (if (v.jkeys).contains "sourceMap" then .error (.unknownOption "sourcemap")
       else if v.jget "sourcemap" = .undef then .ok acc
       else .ok { acc with rawSourceMap := some (.bool (v.jget "sourcemap").truthy) }) := rfl
  rw [hred] at h
  cases hc : (v.jkeys).contains "sourceMap" with
  | true => rw [hc] at h; simp at h
  | false =>
      rw [hc] at h
      simp only [Bool.false_eq_true, if_false, if_neg hval] at h
      exact (Except.ok.inj h).symm

lemma scanOptionKeys_preserve_sourceMap (v : JSValue) (names : List String) :
    ∀ (acc raw : RawOptions), scanOptionKeys v names acc = .ok raw →
      "sourceMap" ∉ names → "sourcemap" ∉ names →
      raw.rawSourceMap = acc.rawSourceMap := by
  induction names with
  | nil =>
      intro acc raw h _ _
      simp only [scanOptionKeys] at h
      rw [Except.ok.inj h]
  | cons n rest ih =>
      intro acc raw h hSM hsm
      obtain ⟨acc', hstep, hrest⟩ := scanOptionKeys_cons_ok v n rest acc raw h
      have h1 : n ≠ "sourceMap" := fun he => hSM (he ▸ List.mem_cons_self _ _)
      have h2 : n ≠ "sourcemap" := fun he => hsm (he ▸ List.mem_cons_self _ _)
      rw [ih acc' raw hrest (fun he => hSM (List.mem_cons_of_mem _ he))
            (fun he => hsm (List.mem_cons_of_mem _ he)),
          scanOptionKey_preserves_sourceMap v acc acc' n hstep h1 h2]

lemma scan_sourceMap_result (v : JSValue) (names : List String) :
    ∀ (acc raw : RawOptions), scanOptionKeys v names acc = .ok raw →
      "sourceMap" ∉ names → "sourcemap" ∈ names → v.jget "sourcemap" ≠ .undef →
      raw.rawSourceMap = some (.bool (v.jget "sourcemap").truthy) := by
  induction names with
  | nil => intro acc raw _ _ hmem; cases hmem
  | cons n rest ih =>
      intro acc raw h hSM hsm hval
      obtain ⟨acc', hstep, hrest⟩ := scanOptionKeys_cons_ok v n rest acc raw h
      have hSMn : n ≠ "sourceMap" := fun he => hSM (he ▸ List.mem_cons_self _ _)
      have hSMrest : "sourceMap" ∉ rest := fun he => hSM (List.mem_cons_of_mem _ he)
      by_cases hn : n = "sourcemap"
      · subst hn
        have hset := scanOptionKey_sourcemap_set v acc acc' hstep hval
        by_cases hsr : "sourcemap" ∈ rest
        · exact ih _ _ hrest hSMrest hsr hval
        · rw [scanOptionKeys_preserve_sourceMap v rest acc' raw hrest hSMrest hsr, hset]
      · have hsr : "sourcemap" ∈ rest := by
          rcases List.mem_cons.mp hsm with h | h
          · exact absurd h.symm hn
          · exact h
        exact ih _ _ hrest hSMrest hsr hval

/-! ## Inversion and round-trip lemmas for `createOptions` -/

lemma fillDefault_some_undef (x : JSValue) : fillDefault (some x) .undef = x := by
  by_cases h : x = .undef <;> simp [fillDefault, h]

lemma fillDefault_ne_undef (slot : Option JSValue) (d : JSValue) (hd : d ≠ .undef) :
    fillDefault slot d ≠ .undef := by
  cases slot with
  | none => simpa [fillDefault] using hd
  | some v => by_cases h : v = .undef <;> simp [fillDefault, h, hd]

lemma adjustRaw_rawSourceMap (raw0 : RawOptions) :
    (adjustRaw raw0).rawSourceMap = raw0.rawSourceMap := by
  simp only [adjustRaw]
  split_ifs <;> rfl

lemma validateMode_ok (m : JSValue) (md : String) (h : validateMode m = .ok md) :
    md = "all" ∨ md = "auto" ∨ md = "strict" := by
  unfold validateMode at h
  split_ifs at h <;>
    first
      | exact Except.noConfusion h
      | (injection h with h; subst h;
         simp [OPTIONS_MODE_ALL, OPTIONS_MODE_AUTO, OPTIONS_MODE_STRICT])

lemma coerceCache_shape (c : JSValue) :
    (coerceCache c).isString = true ∨ ∃ b, coerceCache c = .bool b := by
  unfold coerceCache
  by_cases h : c.isString = true
  · left; simp [h]
  · right; exact ⟨c.truthy, by simp [h]⟩

lemma isString_exists (c : JSValue) (h : c.isString = true) : ∃ s, c = .str s := by
  cases c <;> simp [JSValue.isString] at h ⊢

lemma buildOptions_ok_shape (dev : Bool) (raw : RawOptions) (o : Options)
    (h : buildOptions dev raw = .ok o) :
    o.sourceMap = fillDefault raw.rawSourceMap .undef ∧
    o.await ≠ .undef ∧
    (o.mode = "all" ∨ o.mode = "auto" ∨ o.mode = "strict") ∧
    (o.cache.isString = true ∨ ∃ b, o.cache = .bool b) := by
  simp only [buildOptions] at h
  cases hcjs : createCJS ((raw.rawCjs).getD .undef) with
  | error e => rw [hcjs] at h; exact Except.noConfusion h
  | ok cjsO =>
      rw [hcjs] at h
      simp only [exceptBind_ok] at h
      cases hmf : validateMainFields (fillDefault raw.rawMainFields (.arr [.str "main"])) with
      | error e => rw [hmf] at h; exact Except.noConfusion h
      | ok mfs =>
          rw [hmf] at h
          simp only [exceptBind_ok] at h
          cases hmd : validateMode (fillDefault raw.rawMode (.str "strict")) with
          | error e => rw [hmd] at h; exact Except.noConfusion h
          | ok md =>
              rw [hmd] at h
              simp only [exceptBind_ok] at h
              have ho := Except.ok.inj h
              refine ⟨?_, ?_, ?_, ?_⟩
              · rw [← ho]
              · rw [← ho]
                exact fillDefault_ne_undef _ _ (by simp)
              · rw [← ho]
                exact validateMode_ok _ _ hmd
              · rw [← ho]
                exact coerceCache_shape _

lemma createOptions_obj_scan (dev : Bool) (fields : List (String × JSValue)) :
    createOptions dev (.obj fields) =
      (scanOptionKeys (.obj fields) ((JSValue.obj fields).jkeys) {} >>= fun raw =>
        buildOptions dev (adjustRaw raw)) := rfl

lemma createOptions_ok_inv (dev : Bool) (v : JSValue) (o : Options)
    (h : createOptions dev v = .ok o) :
    ∃ raw, buildOptions dev (adjustRaw raw) = .ok o := by
  unfold createOptions at h
  cases hm : (match v with
      | JSValue.str s => Except.ok { rawMode := some (.str s) : RawOptions }
      | v => scanOptionKeys v v.jkeys {}) with
  | error e => rw [hm] at h; exact Except.noConfusion h
  | ok raw =>
      rw [hm] at h
      simp only [exceptBind_ok] at h
      exact ⟨raw, h⟩

lemma validateMode_str (md : String)
    (hm : md = "all" ∨ md = "auto" ∨ md = "strict") :
    validateMode (.str md) = .ok md := by
  rcases hm with rfl | rfl | rfl <;> rfl

lemma cache_norm (ca : JSValue) (hc : ca.isString = true ∨ ∃ b, ca = .bool b) :
    coerceCache (fillDefault (some ca) (.bool true)) = ca := by
  rcases hc with hs | ⟨b, rfl⟩
  · obtain ⟨s, rfl⟩ := isString_exists ca hs
    rfl
  · rfl

lemma createOptions_toJSValue_roundtrip (dev : Bool) (o : Options)
    (hm : o.mode = "all" ∨ o.mode = "auto" ∨ o.mode = "strict")
    (ha : o.await ≠ .undef)
    (hc : o.cache.isString = true ∨ ∃ b, o.cache = .bool b) :
    createOptions dev o.toJSValue = .ok o := by
  obtain ⟨aw, ca, cj, db, mf, md, sm, wn⟩ := o
  obtain ⟨c1, c2, c3, c4, c5, c6, c7, c8⟩ := cj
  simp only at hm ha hc
  show createOptions dev (.obj [("await", aw), ("cache", ca),
      ("cjs", CJSOptions.toJSValue ⟨c1, c2, c3, c4, c5, c6, c7, c8⟩), ("debug", .bool db),
      ("mainFields", .arr mf), ("mode", .str md), ("sourceMap", sm),
      ("warnings", .bool wn)]) =
    Except.ok ⟨aw, ca, ⟨c1, c2, c3, c4, c5, c6, c7, c8⟩, db, mf, md, sm, wn⟩
  rw [createOptions_obj_scan]
  rw [show scanOptionKeys (.obj [("await", aw), ("cache", ca),
        ("cjs", CJSOptions.toJSValue ⟨c1, c2, c3, c4, c5, c6, c7, c8⟩), ("debug", .bool db),
        ("mainFields", .arr mf), ("mode", .str md), ("sourceMap", sm),
        ("warnings", .bool wn)])
      ((JSValue.obj [("await", aw), ("cache", ca),
        ("cjs", CJSOptions.toJSValue ⟨c1, c2, c3, c4, c5, c6, c7, c8⟩), ("debug", .bool db),
        ("mainFields", .arr mf), ("mode", .str md), ("sourceMap", sm),
        ("warnings", .bool wn)]).jkeys) {} =
      .ok ⟨some aw, some ca, some (CJSOptions.toJSValue ⟨c1, c2, c3, c4, c5, c6, c7, c8⟩),
           some (.bool db), some (.arr mf), some (.str md), some sm,
           some (.bool wn)⟩ from rfl]
  simp only [exceptBind_ok]
  rw [show buildOptions dev
      (adjustRaw ⟨some aw, some ca,
        some (CJSOptions.toJSValue ⟨c1, c2, c3, c4, c5, c6, c7, c8⟩),
        some (.bool db), some (.arr mf), some (.str md), some sm, some (.bool wn)⟩) =
      (validateMode (.str md) >>= fun mode =>
        Except.ok ⟨fillDefault (some aw) (.bool false),
          coerceCache (fillDefault (some ca) (.bool true)),
          ⟨c1, c2, c3, c4, c5, c6, c7, c8⟩, db, mf, mode,
          fillDefault (some sm) .undef, wn⟩) from rfl,
    validateMode_str md hm]
  simp only [exceptBind_ok]
  rw [show fillDefault (some aw) (.bool false) = aw from by simp [fillDefault, ha],
      cache_norm ca hc, fillDefault_some_undef]

/-! ## Claims C2, C8, C9, C10 -/

/-- **C2** — For every valid options record `O`, the options merge/defaulting
operation is idempotent: `createOptions(createOptions(O))` equals
`createOptions(O)` (re-merging the produced record reproduces it exactly). -/
theorem createOptions_idempotent (dev : Bool) (v : JSValue) (o : Options)
    (h : createOptions dev v = .ok o) :
    createOptions dev o.toJSValue = .ok o := by
  obtain ⟨raw, hcore⟩ := createOptions_ok_inv dev v o h
  obtain ⟨hsm, ha, hm, hc⟩ := buildOptions_ok_shape dev _ o hcore
  exact createOptions_toJSValue_roundtrip dev o hm ha hc

/-- Concrete merged record used by the idempotence witness. -/
def idemO : Options :=
  match createOptions false (.obj [("debug", .num 2), ("mode", .str "all")]) with
  | .ok o => o
  | .error _ => default

/-- Witness for **C2** at a concrete input. -/
theorem createOptions_idempotent_witness :
    createOptions false (Options.toJSValue idemO) = .ok idemO :=
  createOptions_idempotent false (.obj [("debug", .num 2), ("mode", .str "all")])
    idemO (by decide)

/-- **C8** — Supplying the `cjs` option as boolean `true` yields a group
record with every toggle `true`; supplying boolean `false` yields every
toggle `false`. -/
theorem cjs_boolean_broadcast (dev : Bool) :
    (createOptions dev (.obj [("cjs", .bool true)])).map (fun o => o.cjs) =
      .ok ⟨true, true, true, true, true, true, true, true⟩ ∧
    (createOptions dev (.obj [("cjs", .bool false)])).map (fun o => o.cjs) =
      .ok ⟨false, false, false, false, false, false, false, false⟩ := by
  cases dev <;> exact ⟨rfl, rfl⟩

/-- **C9 (counterexample)** — `toString` lies outside the known option
schema, yet `createOptions(\x7btoString: 1\x7d)` raises no error: the
known-key test `Reflect.has(defaultOptions, name)` walks the prototype
chain, so the `Object.prototype` name `toString` passes it and is copied
silently, and the call produces the very record an empty options object
would. -/
theorem inherited_key_not_rejected_counterexample :
    "toString" ∉ knownOptionKeys ∧
    (createOptions false (.obj [("toString", .num 1)])).toOption.isSome = true ∧
    createOptions false (.obj [("toString", .num 1)]) =
      createOptions false (.obj []) := by
  refine ⟨by decide, by decide, by decide⟩

/-- **C9 (amended)** — An options record containing a key outside the known
schema that is neither the `sourcemap` legacy alias nor a property name
inherited from `Object.prototype` makes `createOptions` raise the
unknown-option error naming that key; the error is returned to the caller,
not caught internally.  The last hypothesis pins `k` as the offending key. -/
theorem unknown_option_key_raises (dev : Bool) (fields : List (String × JSValue))
    (k : String) (hk : k ∈ (JSValue.obj fields).jkeys) (h1 : k ∉ knownOptionKeys)
    (h2 : k ≠ "sourcemap") (h3 : k ∉ objectProtoKeys)
    (hothers : ∀ j ∈ (JSValue.obj fields).jkeys, j ≠ k → j ∈ knownOptionKeys) :
    createOptions dev (.obj fields) = .error (.unknownOption k) := by
  rw [createOptions_obj_scan,
      scanOptionKeys_error_first (.obj fields) _ k h1 h2 h3 {} hk hothers]
  rfl

/-- Witness for **C9 (amended)**: `\x7bfoo: 1\x7d` raises
`UnknownOptionKey("foo")`. -/
theorem unknown_option_key_raises_witness :
    createOptions false (.obj [("foo", .num 1)]) = .error (.unknownOption "foo") :=
  unknown_option_key_raises false [("foo", .num 1)] "foo" (by decide) (by decide)
    (by decide) (by decide)
    (by
      intro j hj hne
      simp [JSValue.jkeys] at hj
      exact absurd hj hne)

/-- **C10** — When both `sourceMap` and the legacy alias `sourcemap` are
present, `createOptions` raises the unknown-option error for `"sourcemap"`
(first conjunct; the key-set hypothesis rules out unrelated unknown keys).
The alias is accepted — coerced to a boolean and stored as `sourceMap` — only
when `sourceMap` is absent and the alias value is not `undefined` (second
conjunct). -/
theorem sourcemap_alias_handling (dev : Bool) (fields : List (String × JSValue)) :
    ("sourceMap" ∈ (JSValue.obj fields).jkeys →
      "sourcemap" ∈ (JSValue.obj fields).jkeys →
      (∀ j ∈ (JSValue.obj fields).jkeys, j ∈ knownOptionKeys ∨ j = "sourcemap") →
      createOptions dev (.obj fields) = .error (.unknownOption "sourcemap")) ∧
    ("sourceMap" ∉ (JSValue.obj fields).jkeys →
      "sourcemap" ∈ (JSValue.obj fields).jkeys →
      (JSValue.obj fields).jget "sourcemap" ≠ .undef →
      ∀ o, createOptions dev (.obj fields) = .ok o →
        o.sourceMap = .bool ((JSValue.obj fields).jget "sourcemap").truthy) := by
  constructor
  · intro h1 h2 hall
    rw [createOptions_obj_scan,
        scanOptionKeys_alias_error (.obj fields) _ (by simpa using h1) {} h2 hall]
    rfl
  · intro h1 h2 hval o h
    rw [createOptions_obj_scan] at h
    cases hscan : scanOptionKeys (.obj fields) ((JSValue.obj fields).jkeys) {} with
    | error e =>
        rw [hscan, exceptBind_error] at h
        exact Except.noConfusion h
    | ok raw =>
        rw [hscan] at h
        simp only [exceptBind_ok] at h
        obtain ⟨hsm, -, -, -⟩ := buildOptions_ok_shape dev _ o h
        rw [hsm, adjustRaw_rawSourceMap,
            scan_sourceMap_result (.obj fields) _ {} raw hscan h1 h2 hval,
            fillDefault_some_undef]

/-- Witness for **C10**: both keys present raises the alias error. -/
theorem sourcemap_alias_handling_witness :
    createOptions false (.obj [("sourceMap", .bool true), ("sourcemap", .num 1)]) =
      .error (.unknownOption "sourcemap") :=
  (sourcemap_alias_handling false [("sourceMap", .bool true), ("sourcemap", .num 1)]).1
    (by decide) (by decide)
    (by
      intro j hj
      simp [JSValue.jkeys] at hj
      rcases hj with rfl | rfl
      · exact Or.inl (by decide)
      · exact Or.inr rfl)

/-! ## Filesystem model and the cache-load half of the `Package` constructor -/

/-- A directory path, as a list of components from the filesystem root
(`[]` is the root, whose parent is itself). -/
abbrev FPath := List String

/-- `path/dirname.js`: the parent directory (the root is its own parent). -/
def dirnameP (p : FPath) : FPath := p.dropLast

/-- `basename`: the last path component (empty for the root). -/
def basenameP (p : FPath) : String := p.getLastD ""

/-- The filesystem as a list of regular files.  File contents are carried as
their parsed `JSValue` (the strict/relaxed text parsers are external leaf
collaborators, so a file is represented by what parsing it yields). -/
structure FS where
  files : List (FPath × JSValue)
deriving DecidableEq, Repr

namespace FS

/-- `fs/read-file.js` and `fs/read-json.js`: `none` when absent. -/
def read (fs : FS) (p : FPath) : Option JSValue :=
  (fs.files.find? (fun e => e.1 = p)).map (fun e => e.2)

/-- `util/is-file.js`. -/
def isFile (fs : FS) (p : FPath) : Bool := (fs.read p).isSome

/-- `fs/readdir.js`: names of the entries directly under `p` (empty for a
missing directory, mirroring the error-swallowing reader). -/
def readdir (fs : FS) (p : FPath) : List String :=
  (fs.files.filterMap (fun e =>
    if e.1.take p.length = p ∧ p.length < e.1.length then e.1.get? p.length
    else none)).dedup

/-- `fs/remove-file.js`: removing a missing file is a no-op. -/
def remove (fs : FS) (p : FPath) : FS := ⟨fs.files.filter (fun e => ¬ e.1 = p)⟩

end FS

/-- The ambient process state the module reads at load time, plus the two
external collaborators (`loadESM` for executable activation files and
semver's `validRange`). -/
structure Env where
  NYC : Bool
  DEVELOPMENT : Bool
  OPTIONS : JSValue
  PKG_VERSION : String
  loadESM : FPath → JSValue
  validRange : JSValue → Option String

/-- The empty buffer `GenericBuffer.alloc(0)` (buffer contents are opaque to
the modelled code, so a buffer is carried as a `JSValue`). -/
def emptyBuffer : JSValue := .str ""

/-- One per cache path: the in-memory cache record `\x7bbuffer, compile, map\x7d`
(`none` models the JavaScript `null` of a never-loaded field). -/
structure CacheData where
  buffer : Option JSValue
  comp : List (String × JSValue)
  map : Option JSValue
deriving DecidableEq, Repr, Inhabited

/-- Modelled from the spec: the ArtifactCache `get` accessor (`load/get/set`
contract of §4.2) is not itself under `src/`; per the spec it looks the entry
name up in the index. -/
def CacheData.getEntry (cd : CacheData) (name : String) : Option JSValue :=
  (cd.comp.find? (fun e => e.1 = name)).map (fun e => e.2)

/-- Split a character list at `/` separators (kernel-reducible model of
`String.split`). -/
def splitSlashAux : List Char → List (List Char)
  | [] => [[]]
  | c :: cs =>
      let r := splitSlashAux cs
      if c = '/' then [] :: r
      else
        match r with
        | a :: rest => (c :: a) :: rest
        | [] => [[c]]

/-- `s.split("/")`. -/
def splitOnSlashS (s : String) : List String := (splitSlashAux s.data).map String.mk

/-- `path/extname.js` (Node semantics: no extension when the only dot starts
the basename). -/
def extnameS (s : String) : String :=
  let base := (splitOnSlashS s).getLastD s
  let cs := base.data
  match cs.reverse.findIdx? (fun c => c = '.') with
  | none => ""
  | some j =>
      let i := cs.length - 1 - j
      if i = 0 then "" else String.mk (cs.drop i)

/-- `path.resolve(base, s)` for the relative segments the code uses. -/
def resolvePath (base : FPath) (s : String) : FPath :=
  let comps := splitOnSlashS s
  let start := if s.data.head? = some '/' then ([] : FPath) else base
  comps.foldl (fun acc c =>
    if c = "" ∨ c = "." then acc
    else if c = ".." then acc.dropLast
    else acc ++ [c]) start

/-- `name.charCodeAt(0) === DOT` (false on the empty string, whose char code
is `NaN`). -/
def startsWithDot (s : String) : Bool := s.data.head? = some '.'

/-- Accumulator of the cache-directory scan loop in the `Package`
constructor. -/
structure ScanAcc where
  comp : List (String × JSValue)
  hasBuffer : Bool
  hasMap : Bool
  hasDirtyMarker : Bool
  hasNycMarker : Bool
deriving DecidableEq, Repr

/-- The cache-directory scan loop: classify each name, registering ordinary
payload names as `true` sentinels, and stop (`break`) at a `.dirty` marker. -/
def scanCacheNames : List String → ScanAcc → ScanAcc
  | [], acc => acc
  | name :: rest, acc =>
      if ¬ startsWithDot name then
        scanCacheNames rest { acc with comp := oset acc.comp name (.bool true) }
      else if name = ".data.blob" then
        scanCacheNames rest { acc with hasBuffer := true }
      else if name = ".data.json" then
        scanCacheNames rest { acc with hasMap := true }
      else if name = ".dirty" then { acc with hasDirtyMarker := true }
      else if name = ".nyc" then
        scanCacheNames rest { acc with hasNycMarker := true }
      else scanCacheNames rest acc

/-- `clearBabelCache`: purge the sibling `@babel/register` cache of its
structured-text files. -/
def clearBabelCache (fs : FS) (cachePath : FPath) : FS :=
  let babelCachePath := resolvePath cachePath "../@babel/register"
  (fs.readdir babelCachePath).foldl (fun acc name =>
    if extnameS name = ".json" then acc.remove (babelCachePath ++ [name]) else acc) fs

/-- The invalidity judgement of the cache-load block: dirty marker, or an
instrumentation-marker mismatch, or (when those pass and `.data.json` was
seen) a version stamp differing from the running version.  The code computes
`isCacheInvalid` exactly this way: `dataJSON` is only consulted when the
marker checks pass and the metadata file was scanned before any `break`. -/
def cacheInvalid (env : Env) (fs : FS) (cachePath : FPath) : Bool :=
  let a := scanCacheNames (fs.readdir cachePath) ⟨[], false, false, false, false⟩
  let hasNycNoMarker := env.NYC && !a.hasNycMarker
  let noNycHasMarker := !env.NYC && a.hasNycMarker
  let invalid0 := a.hasDirtyMarker || hasNycNoMarker || noNycHasMarker
  if a.hasMap && !invalid0 then
    decide ((((fs.read (cachePath ++ [".data.json"])).getD .vnull).jget "version")
      ≠ .str env.PKG_VERSION)
  else invalid0

/-- The transient-marker removal of the cache-load block: delete an observed
`.dirty` marker, and an observed `.nyc` marker when instrumentation is
inactive in-process. -/
def removeMarkers (env : Env) (fs : FS) (cachePath : FPath) : FS :=
  let a := scanCacheNames (fs.readdir cachePath) ⟨[], false, false, false, false⟩
  let noNycHasMarker := !env.NYC && a.hasNycMarker
  let fs1 := if a.hasDirtyMarker then fs.remove (cachePath ++ [".dirty"]) else fs
  if noNycHasMarker then fs1.remove (cachePath ++ [".nyc"]) else fs1

/-- The cache-load block of the `Package` constructor (the body of
`if (cachePath)`): scan the directory once, judge validity from the markers
and the `.data.json` version stamp, clear transient markers, discard
everything on invalidity, and materialise `buffer`/`map`.  Reading
`.data.json` is hoisted out of its guard (reads have no effect in the model,
and the parsed value is only used when the guard held). -/
def loadCacheData (env : Env) (fs : FS) (cachePath : FPath) : FS × CacheData :=
  let a := scanCacheNames (fs.readdir cachePath) ⟨[], false, false, false, false⟩
  let invalid := cacheInvalid env fs cachePath
  let dataJSON := (fs.read (cachePath ++ [".data.json"])).getD .vnull
  let fs2 := removeMarkers env fs cachePath
  let compFinal := if invalid then [] else a.comp
  let hasBuffer := !invalid && a.hasBuffer
  let hasMap := !invalid && a.hasMap
  let fs3 := if invalid then clearBabelCache fs2 cachePath else fs2
  let buffer := if hasBuffer then fs3.read (cachePath ++ [".data.blob"]) else some emptyBuffer
  let mapV := some (if hasMap then dataJSON.jget "map" else .obj [])
  (fs3, ⟨buffer, compFinal, mapV⟩)

/-! ## Characterisation of the cache-directory scan -/

lemma not_dot_ne (n : String) (h : ¬ startsWithDot n = true) (m : String)
    (hm : startsWithDot m = true) : n ≠ m :=
  fun he => h (he ▸ hm)

lemma dot_blob : startsWithDot ".data.blob" = true := rfl

lemma dot_json : startsWithDot ".data.json" = true := rfl

lemma dot_dirty : startsWithDot ".dirty" = true := rfl

lemma dot_nyc : startsWithDot ".nyc" = true := rfl

lemma scanCacheNames_dirty (l : List String) :
    ∀ acc : ScanAcc, (scanCacheNames l acc).hasDirtyMarker
      = (acc.hasDirtyMarker || l.contains ".dirty") := by
  induction l with
  | nil => intro acc; simp [scanCacheNames]
  | cons n rest ih =>
      intro acc
      by_cases h0 : startsWithDot n
      case neg =>
        have hne : n ≠ ".dirty" := not_dot_ne n h0 _ dot_dirty
        simp [scanCacheNames, h0, ih, hne, Ne.symm hne]
      case pos =>
        by_cases h1 : n = ".data.blob"
        · subst h1; simp [scanCacheNames, dot_blob, ih]
        · by_cases h2 : n = ".data.json"
          · subst h2; simp [scanCacheNames, dot_json, ih]
          · by_cases h3 : n = ".dirty"
            · subst h3; simp [scanCacheNames, dot_dirty]
            · by_cases h4 : n = ".nyc"
              · subst h4; simp [scanCacheNames, dot_nyc, ih]
              · simp [scanCacheNames, h0, h1, h2, h3, h4, Ne.symm h3, ih]

lemma scanCacheNames_nyc (l : List String) :
    ∀ acc : ScanAcc, (scanCacheNames l acc).hasNycMarker
      = (acc.hasNycMarker || (l.takeWhile (fun n => n ≠ ".dirty")).contains ".nyc") := by
  induction l with
  | nil => intro acc; simp [scanCacheNames]
  | cons n rest ih =>
      intro acc
      by_cases h0 : startsWithDot n
      case neg =>
        have hne : n ≠ ".dirty" := not_dot_ne n h0 _ dot_dirty
        have hne2 : n ≠ ".nyc" := not_dot_ne n h0 _ dot_nyc
        simp [scanCacheNames, h0, ih, hne, Ne.symm hne, hne2, Ne.symm hne2]
      case pos =>
        by_cases h1 : n = ".data.blob"
        · subst h1; simp [scanCacheNames, dot_blob, ih]
        · by_cases h2 : n = ".data.json"
          · subst h2; simp [scanCacheNames, dot_json, ih]
          · by_cases h3 : n = ".dirty"
            · subst h3; simp [scanCacheNames, dot_dirty]
            · by_cases h4 : n = ".nyc"
              · subst h4; simp [scanCacheNames, dot_nyc, ih]
              · simp [scanCacheNames, h0, h1, h2, h3, h4, Ne.symm h3, Ne.symm h4, ih]

lemma scanCacheNames_map (l : List String) :
    ∀ acc : ScanAcc, (scanCacheNames l acc).hasMap
      = (acc.hasMap || (l.takeWhile (fun n => n ≠ ".dirty")).contains ".data.json") := by
  induction l with
  | nil => intro acc; simp [scanCacheNames]
  | cons n rest ih =>
      intro acc
      by_cases h0 : startsWithDot n
      case neg =>
        have hne : n ≠ ".dirty" := not_dot_ne n h0 _ dot_dirty
        have hne2 : n ≠ ".data.json" := not_dot_ne n h0 _ dot_json
        simp [scanCacheNames, h0, ih, hne, Ne.symm hne, hne2, Ne.symm hne2]
      case pos =>
        by_cases h1 : n = ".data.blob"
        · subst h1; simp [scanCacheNames, dot_blob, ih]
        · by_cases h2 : n = ".data.json"
          · subst h2; simp [scanCacheNames, dot_json, ih]
          · by_cases h3 : n = ".dirty"
            · subst h3; simp [scanCacheNames, dot_dirty]
            · by_cases h4 : n = ".nyc"
              · subst h4; simp [scanCacheNames, dot_nyc, ih]
              · simp [scanCacheNames, h0, h1, h2, h3, h4, Ne.symm h3, Ne.symm h2, ih]

/-! ## Filesystem lemmas -/

lemma takeWhile_ne_of_not_mem (l : List String) (x : String) (h : x ∉ l) :
    l.takeWhile (fun n => n ≠ x) = l := by
  induction l with
  | nil => rfl
  | cons n rest ih =>
      have h1 : n ≠ x := fun he => h (he ▸ List.mem_cons_self _ _)
      have h2 : x ∉ rest := fun hm => h (List.mem_cons_of_mem _ hm)
      simp [List.takeWhile_cons, h1, ih h2]
      exact fun y hy he => h2 (he ▸ hy)

lemma readdir_mem_of_read (fs : FS) (p : FPath) (name : String) (v : JSValue)
    (h : fs.read (p ++ [name]) = some v) : name ∈ fs.readdir p := by
  unfold FS.read at h
  cases hf : fs.files.find? (fun e => e.1 = p ++ [name]) with
  | none => rw [hf] at h; cases h
  | some e =>
      have hmem := List.mem_of_find?_eq_some hf
      have hp : e.1 = p ++ [name] := by
        have := List.find?_some hf
        simpa using this
      unfold FS.readdir
      rw [List.mem_dedup]
      apply List.mem_filterMap.mpr
      refine ⟨e, hmem, ?_⟩
      rw [hp]
      have h1 : (p ++ [name]).take p.length = p := by simp
      have h2 : p.length < (p ++ [name]).length := by simp
      have h3 : (p ++ [name]).get? p.length = some name := by
        simp [List.get?_eq_getElem?]
      simp [h1, h2, h3]

lemma FS.read_remove_self (fs : FS) (p : FPath) : (fs.remove p).read p = none := by
  simp only [FS.read, FS.remove, Option.map_eq_none']
  rw [List.find?_eq_none]
  intro x hx
  simp only [List.mem_filter] at hx
  simpa using hx.2

lemma FS.read_none_remove (fs : FS) (p q : FPath) (h : fs.read q = none) :
    (fs.remove p).read q = none := by
  simp only [FS.read, FS.remove, Option.map_eq_none'] at h ⊢
  rw [List.find?_eq_none] at h ⊢
  intro x hx
  exact h x (List.mem_of_mem_filter hx)

lemma clearBabelCache_read_none (fs : FS) (cp : FPath) (q : FPath)
    (h : fs.read q = none) : (clearBabelCache fs cp).read q = none := by
  unfold clearBabelCache
  suffices H : ∀ (names : List String) (g : FS), g.read q = none →
      (names.foldl (fun acc name =>
        if extnameS name = ".json" then
          acc.remove (resolvePath cp "../@babel/register" ++ [name])
        else acc) g).read q = none by
    exact H _ fs h
  intro names
  induction names with
  | nil => intro g hg; simpa using hg
  | cons n rest ih =>
      intro g hg
      simp only [List.foldl_cons]
      by_cases he : extnameS n = ".json"
      · rw [if_pos he]
        exact ih _ (FS.read_none_remove g _ q hg)
      · rw [if_neg he]
        exact ih _ hg

/-! ## Claims C4 and C5 -/

lemma loadCacheData_snd_invalid (env : Env) (fs : FS) (cp : FPath)
    (h : cacheInvalid env fs cp = true) :
    (loadCacheData env fs cp).2 = ⟨some emptyBuffer, [], some (.obj [])⟩ := by
  simp [loadCacheData, h]

/-- **C4** — A version-stamp mismatch recorded in `.data.json` makes the
cache load clear the entry index, the blob and the metadata map (empty index,
empty buffer, empty map), and a subsequent `get` for any previously valid
entry name returns `undefined`. -/
theorem version_mismatch_clears_cache (env : Env) (fs : FS) (cp : FPath)
    (dj : JSValue) (h1 : fs.read (cp ++ [".data.json"]) = some dj)
    (h2 : dj.jget "version" ≠ .str env.PKG_VERSION) :
    (loadCacheData env fs cp).2.comp = [] ∧
    (loadCacheData env fs cp).2.buffer = some emptyBuffer ∧
    (loadCacheData env fs cp).2.map = some (.obj []) ∧
    ∀ name, (loadCacheData env fs cp).2.getEntry name = none := by
  have hinv : cacheInvalid env fs cp = true := by
    simp only [cacheInvalid]
    set a := scanCacheNames (fs.readdir cp) ⟨[], false, false, false, false⟩ with ha
    by_cases h0 : (a.hasDirtyMarker || (env.NYC && !a.hasNycMarker) ||
        (!env.NYC && a.hasNycMarker)) = true
    · simp only [h0]
      simp
    · have h0' : (a.hasDirtyMarker || (env.NYC && !a.hasNycMarker) ||
          (!env.NYC && a.hasNycMarker)) = false := by
        revert h0
        cases (a.hasDirtyMarker || (env.NYC && !a.hasNycMarker) ||
          (!env.NYC && a.hasNycMarker)) <;> simp
      have hdirty : a.hasDirtyMarker = false := by
        by_contra hcon
        have : a.hasDirtyMarker = true := by
          revert hcon; cases a.hasDirtyMarker <;> simp
        rw [this] at h0'
        simp at h0'
      have hndl : ".dirty" ∉ fs.readdir cp := by
        intro hc
        have hd := scanCacheNames_dirty (fs.readdir cp) ⟨[], false, false, false, false⟩
        rw [← ha, hdirty] at hd
        simp [hc] at hd
      have hmap : a.hasMap = true := by
        have hm := scanCacheNames_map (fs.readdir cp) ⟨[], false, false, false, false⟩
        rw [← ha] at hm
        rw [hm, takeWhile_ne_of_not_mem _ _ hndl]
        have hmem := readdir_mem_of_read fs cp ".data.json" dj h1
        simp [hmem]
      rw [hmap, h0']
      simp [h1, h2]
  rw [loadCacheData_snd_invalid env fs cp hinv]
  exact ⟨rfl, rfl, rfl, fun name => rfl⟩

/-- Concrete environment for the cache witnesses. -/
def envC4 : Env :=
  ⟨false, false, .undef, "new-version", fun _ => .undef, fun _ => none⟩

/-- Concrete filesystem whose `.data.json` carries a stale version stamp. -/
def fsC4 : FS :=
  ⟨[(["c", ".data.json"], .obj [("version", .str "old-version"), ("map", .obj [])]),
    (["c", "abc123"], .str "code"),
    (["c", ".data.blob"], .str "BLOB")]⟩

/-- Witness for **C4** at a concrete input. -/
theorem version_mismatch_clears_cache_witness :
    (loadCacheData envC4 fsC4 ["c"]).2.comp = [] ∧
    (loadCacheData envC4 fsC4 ["c"]).2.buffer = some emptyBuffer ∧
    (loadCacheData envC4 fsC4 ["c"]).2.map = some (.obj []) ∧
    (loadCacheData envC4 fsC4 ["c"]).2.getEntry "abc123" = none :=
  have h := version_mismatch_clears_cache envC4 fsC4 ["c"]
    (.obj [("version", .str "old-version"), ("map", .obj [])]) (by decide) (by decide)
  ⟨h.1, h.2.1, h.2.2.1, h.2.2.2 "abc123"⟩

lemma removeMarkers_dirty_none (env : Env) (fs : FS) (cp : FPath)
    (hd : (scanCacheNames (fs.readdir cp)
      ⟨[], false, false, false, false⟩).hasDirtyMarker = true) :
    (removeMarkers env fs cp).read (cp ++ [".dirty"]) = none := by
  simp only [removeMarkers, hd, if_true]
  by_cases hy : (!env.NYC && (scanCacheNames (fs.readdir cp)
      ⟨[], false, false, false, false⟩).hasNycMarker) = true
  · simp only [hy, if_true]
    exact FS.read_none_remove _ _ _ (FS.read_remove_self fs _)
  · simp only [Bool.not_eq_true] at hy
    simp only [hy, Bool.false_eq_true, if_false]
    exact FS.read_remove_self fs _

lemma removeMarkers_nyc_none (env : Env) (fs : FS) (cp : FPath)
    (hnyc : env.NYC = false)
    (hm : (scanCacheNames (fs.readdir cp)
      ⟨[], false, false, false, false⟩).hasNycMarker = true) :
    (removeMarkers env fs cp).read (cp ++ [".nyc"]) = none := by
  simp only [removeMarkers, hm, hnyc]
  simp only [Bool.not_false, Bool.and_self, if_true]
  exact FS.read_remove_self _ _

lemma loadCacheData_fst_none (env : Env) (fs : FS) (cp : FPath) (q : FPath)
    (h : (removeMarkers env fs cp).read q = none) :
    (loadCacheData env fs cp).1.read q = none := by
  simp only [loadCacheData]
  by_cases hi : cacheInvalid env fs cp = true
  · simp only [hi, if_true]
    exact clearBabelCache_read_none _ _ _ h
  · simp only [Bool.not_eq_true] at hi
    simp only [hi, Bool.false_eq_true, if_false]
    exact h

/-- **C5 (amended)** — During cache load, a `.dirty` marker file present in
the directory listing is always removed from disk; a mismatched
instrumentation marker (`.nyc` present while instrumentation is inactive) is
removed provided the scan observes it, i.e. provided no `.dirty` marker
precedes it in the directory listing (the scan loop stops at `.dirty`).  Both
hold regardless of whether the cache as a whole is judged invalid (no
validity hypothesis appears). -/
theorem marker_removal (env : Env) (fs : FS) (cp : FPath) :
    (".dirty" ∈ fs.readdir cp →
      (loadCacheData env fs cp).1.read (cp ++ [".dirty"]) = none) ∧
    (env.NYC = false →
      ".nyc" ∈ (fs.readdir cp).takeWhile (fun n => n ≠ ".dirty") →
      (loadCacheData env fs cp).1.read (cp ++ [".nyc"]) = none) := by
  constructor
  · intro hd
    have hdirty : (scanCacheNames (fs.readdir cp)
        ⟨[], false, false, false, false⟩).hasDirtyMarker = true := by
      rw [scanCacheNames_dirty]
      simp [hd]
    exact loadCacheData_fst_none env fs cp _ (removeMarkers_dirty_none env fs cp hdirty)
  · intro hnyc hm
    have hmark : (scanCacheNames (fs.readdir cp)
        ⟨[], false, false, false, false⟩).hasNycMarker = true := by
      rw [scanCacheNames_nyc]
      simpa using hm
    exact loadCacheData_fst_none env fs cp _ (removeMarkers_nyc_none env fs cp hnyc hmark)

/-- Witness for **C5 (amended)** at a concrete input: a lone `.dirty` marker
and a lone mismatched `.nyc` marker are both removed. -/
theorem marker_removal_witness :
    (loadCacheData envC4 ⟨[(["c", ".dirty"], .str "")]⟩ ["c"]).1.read
      (["c", ".dirty"]) = none ∧
    (loadCacheData envC4 ⟨[(["c", ".nyc"], .str "")]⟩ ["c"]).1.read
      (["c", ".nyc"]) = none :=
  ⟨(marker_removal envC4 ⟨[(["c", ".dirty"], .str "")]⟩ ["c"]).1 (by decide),
   (marker_removal envC4 ⟨[(["c", ".nyc"], .str "")]⟩ ["c"]).2 (by decide) (by decide)⟩

/-- Counterexample to **C5** as stated: with the listing `[.dirty, .nyc]` and
instrumentation inactive, the scan `break`s at `.dirty`, so the mismatched
`.nyc` marker — present on disk — is never observed and is left on disk,
while `.dirty` is removed. -/
theorem nyc_marker_left_counterexample :
    envC4.NYC = false ∧
    (⟨[(["c", ".dirty"], .str ""), (["c", ".nyc"], .str "")]⟩ : FS).read
      (["c", ".nyc"]) = some (.str "") ∧
    (loadCacheData envC4 ⟨[(["c", ".dirty"], .str ""), (["c", ".nyc"], .str "")]⟩
      ["c"]).1.read (["c", ".nyc"]) = some (.str "") ∧
    (loadCacheData envC4 ⟨[(["c", ".dirty"], .str ""), (["c", ".nyc"], .str "")]⟩
      ["c"]).1.read (["c", ".dirty"]) = none := by
  decide

/-! ## The compiler dispatch file (`Compiler.compile`, `removeExpired`) -/

/-- The translator's output: `\x7btype, code\x7d` (the optional source map is not
consumed by the modelled code). -/
structure CompileResult where
  type : String
  code : String
deriving DecidableEq, Repr

/-- The flags handed to the external translator by `toCompileOptions`. -/
structure CompileOpts where
  cjs : JSValue
  ext : JSValue
  runtimeAlias : JSValue
  type : String
  varJS : JSValue
deriving DecidableEq, Repr

/-- The package options record of the compiler file (`pkgInfo.options`):
`esm`, `cjs`, `ext`, `var` (the last is called `varJS` here). -/
structure CPkgOptions where
  esm : JSValue
  cjs : JSValue
  ext : JSValue
  varJS : JSValue
deriving DecidableEq, Repr

/-- `options.pkgInfo` of the compiler file: scope directory, options, and the
in-memory result cache (`cache.set`/`cache.keys`). -/
structure CPkgInfo where
  dirPath : String
  options : CPkgOptions
  cache : List (String × CompileResult)
deriving DecidableEq, Repr

/-- The options record handed to `Compiler.compile`. -/
structure COptions where
  filePath : JSValue
  cachePath : String
  cacheFileName : String
  runtimeAlias : JSValue
  pkgInfo : CPkgInfo
deriving DecidableEq, Repr

/-- `path.join(a, b)`. -/
def pjoin (a b : String) : String := a ++ "/" ++ b

/-- `toCompileOptions`: choose the compile input type from the file extension
and the `esm` package option. -/
def toCompileOptions (options : COptions) : CompileOpts :=
  let pkgOptions := options.pkgInfo.options
  let type :=
    match options.filePath with
    | .str fp =>
        if extnameS fp = ".mjs" then "module"
        else if pkgOptions.esm = .str "js" then "unambiguous"
        else "script"
    | _ => if pkgOptions.esm = .str "js" then "unambiguous" else "script"
  ⟨pkgOptions.cjs, pkgOptions.ext, options.runtimeAlias, type, pkgOptions.varJS⟩

/-- `cache.set(name, result)`: overwrite in place or append. -/
def cset (c : List (String × CompileResult)) (k : String) (v : CompileResult) :
    List (String × CompileResult) :=
  if c.any (fun e => e.1 = k) then c.map (fun e => if e.1 = k then (k, v) else e)
  else c ++ [(k, v)]

/-- `cache.get(name)` of the in-memory result cache. -/
def cgetResult (c : List (String × CompileResult)) (k : String) : Option CompileResult :=
  (c.find? (fun e => e.1 = k)).map (fun e => e.2)

/-- A deferred write request (`writeFileDefer` arguments): target path, gzip
framing, produced content, encoding, and write scope. -/
structure WriteReq where
  path : String
  gz : Bool
  output : String
  encoding : Option String
  scopePath : String
deriving DecidableEq, Repr

/-- Modelled from the spec: `util/create-options.js` of the compiler file is
not under `src/`; a one-argument call is a defensive shallow copy, the
identity on the modelled record. -/
def copyOptions (o : COptions) : COptions := o

/-- `compileAndCache`: translate and register the result in the in-memory
cache. -/
def compileAndCache (tr : String → CompileOpts → CompileResult) (code : String)
    (o : COptions) : CompileResult × List (String × CompileResult) :=
  let result := tr code (toCompileOptions o)
  (result, cset o.pkgInfo.cache o.cacheFileName result)

/-- `compileAndWrite`: as `compileAndCache`, then issue a deferred scoped
write of the output — but only for a `"module"`-typed result. -/
def compileAndWrite (tr : String → CompileOpts → CompileResult) (code : String)
    (o : COptions) :
    CompileResult × List (String × CompileResult) × Option WriteReq :=
  let rc := compileAndCache tr code o
  if rc.1.type ≠ "module" then (rc.1, rc.2, none)
  else
    let cacheFilePath := pjoin o.cachePath o.cacheFileName
    let isGzipped := extnameS cacheFilePath = ".gz"
    (rc.1, rc.2, some ⟨cacheFilePath, isGzipped, rc.1.code,
      if isGzipped then none else some "utf8", o.pkgInfo.dirPath⟩)

/-- `compileWithFilename`: the try/catch only annotates a thrown error with
the file name; the modelled translator is total, so it coincides with
`compileAndWrite`. -/
def compileWithFilename := compileAndWrite

/-- `Compiler.compile`: dispatch on whether `filePath` is a string. -/
def compilerCompile (tr : String → CompileOpts → CompileResult) (code : String)
    (options : COptions) :
    CompileResult × List (String × CompileResult) × Option WriteReq :=
  let options := copyOptions options
  match options.filePath with
  | .str _ => compileWithFilename tr code options
  | _ =>
      let rc := compileAndCache tr code options
      (rc.1, rc.2, none)

/-- The on-disk artifact tree of the compiler file, keyed by joined string
paths. -/
structure DiskFS where
  files : List (String × String)
deriving DecidableEq, Repr

/-- Read a file (`none` when absent). -/
def DiskFS.read (fs : DiskFS) (p : String) : Option String :=
  (fs.files.find? (fun e => e.1 = p)).map (fun e => e.2)

/-- `removeFile`: removing a missing file is a no-op. -/
def DiskFS.remove (fs : DiskFS) (p : String) : DiskFS :=
  ⟨fs.files.filter (fun e => ¬ e.1 = p)⟩

/-- `s.slice(0, n)`. -/
def sliceTo (s : String) (n : Nat) : String := String.mk (s.data.take n)

/-- `s.startsWith(w)`. -/
def jsStartsWith (s w : String) : Bool := w.data.isPrefixOf s.data

/-- `removeExpired(cache, cachePath, cacheFileName)`: delete from disk every
cache key other than the fresh entry that starts with the entry's 8-character
name prefix.  `ckeys` is `cache.keys()` at callback time. -/
def removeExpired (ckeys : List String) (cachePath cacheFileName : String)
    (fs : DiskFS) : DiskFS :=
  let shortname := sliceTo cacheFileName 8
  ckeys.foldl (fun acc key =>
    if key ≠ cacheFileName ∧ jsStartsWith key shortname = true then
      acc.remove (pjoin cachePath key)
    else acc) fs

/-- The completion callback passed to `writeFileDefer` by `compileAndWrite`:
on success run the expiry sweep, on failure do nothing. -/
def writeDeferDone (ckeys : List String) (cachePath cacheFileName : String)
    (success : Bool) (fs : DiskFS) : DiskFS :=
  if success then removeExpired ckeys cachePath cacheFileName fs else fs

/-! ## Claims C3 and C6 -/

lemma find_set_mem (c : List (String × CompileResult)) (k : String) (v : CompileResult)
    (h : c.any (fun e => e.1 = k) = true) :
    (c.map (fun e => if e.1 = k then (k, v) else e)).find? (fun e => e.1 = k) =
      some (k, v) := by
  induction c with
  | nil => simp at h
  | cons e rest ih =>
      by_cases he : e.1 = k
      · simp [he]
      · have h' : rest.any (fun e => e.1 = k) = true := by simpa [he] using h
        simp [he, ih h']

lemma cgetResult_cset_self (c : List (String × CompileResult)) (k : String)
    (v : CompileResult) : cgetResult (cset c k v) k = some v := by
  unfold cset cgetResult
  split_ifs with h
  · rw [find_set_mem c k v h]
    rfl
  · have hnone : c.find? (fun e => e.1 = k) = none := by
      rw [List.find?_eq_none]
      intro x hx hc
      exact h (List.any_eq_true.mpr ⟨x, hx, hc⟩)
    rw [List.find?_append, hnone]
    simp

/-- **C6** — A compile result reaches the artifact cache file tree only when
its type is `"module"`: a `"script"` or `"unambiguous"` result triggers no
deferred file write, yet every result is still registered in the in-memory
cache. -/
theorem module_only_persistence (tr : String → CompileOpts → CompileResult)
    (code : String) (o : COptions) :
    ((compilerCompile tr code o).1.type = "script" ∨
      (compilerCompile tr code o).1.type = "unambiguous" →
      (compilerCompile tr code o).2.2 = none) ∧
    ((compilerCompile tr code o).2.2.isSome = true →
      (compilerCompile tr code o).1.type = "module") ∧
    cgetResult (compilerCompile tr code o).2.1 o.cacheFileName =
      some (compilerCompile tr code o).1 := by
  by_cases ht : (tr code (toCompileOptions o)).type = "module"
  · rcases ho : o.filePath with _ | _ | b | n | fp | xs | fl <;>
      simp [compilerCompile, copyOptions, compileWithFilename, compileAndWrite,
        compileAndCache, ho, ht, cgetResult_cset_self]
  · rcases ho : o.filePath with _ | _ | b | n | fp | xs | fl <;>
      simp [compilerCompile, copyOptions, compileWithFilename, compileAndWrite,
        compileAndCache, ho, ht, cgetResult_cset_self]

/-- Concrete translator for the C6 witness. -/
def trW : String → CompileOpts → CompileResult := fun code co => ⟨co.type, code⟩

/-- Concrete compile options for the C6 witness (a `.js` file, so the input
type is `"script"` and the stub translator echoes it). -/
def coW : COptions :=
  ⟨.str "/p/a.js", "/p/cache", "abcdefgh11", .undef,
   ⟨"/p", ⟨.undef, .undef, .undef, .undef⟩, []⟩⟩

/-- Witness for **C6** at a concrete input: a `"script"` result is cached but
not written. -/
theorem module_only_persistence_witness :
    (compilerCompile trW "x" coW).2.2 = none ∧
    cgetResult (compilerCompile trW "x" coW).2.1 "abcdefgh11" =
      some (compilerCompile trW "x" coW).1 :=
  ⟨(module_only_persistence trW "x" coW).1 (by decide),
   (module_only_persistence trW "x" coW).2.2⟩

lemma stringExt (a b : String) (h : a.data = b.data) : a = b := by
  cases a with
  | mk d1 =>
      cases b with
      | mk d2 => exact congrArg String.mk (by simpa using h)

lemma pjoin_right_inj (cp a b : String) (h : pjoin cp a = pjoin cp b) : a = b := by
  unfold pjoin at h
  have hd := congrArg String.data h
  simp only [String.data_append] at hd
  exact stringExt a b (List.append_cancel_left hd)

lemma find_pred_congr {α : Type} (p q : α → Bool) (h : ∀ a, p a = q a)
    (l : List α) : l.find? p = l.find? q := by
  induction l with
  | nil => rfl
  | cons e rest ih => simp [List.find?_cons, h e, ih]

lemma DiskFS.read_remove (g : DiskFS) (p q : String) :
    (g.remove p).read q = if q = p then none else g.read q := by
  by_cases h : q = p
  · subst h
    rw [if_pos rfl]
    simp only [DiskFS.read, DiskFS.remove, Option.map_eq_none']
    rw [List.find?_eq_none]
    intro x hx
    simp only [List.mem_filter] at hx
    simpa using hx.2
  · rw [if_neg h]
    simp only [DiskFS.read, DiskFS.remove]
    congr 1
    rw [List.find?_filter]
    apply find_pred_congr
    intro a
    by_cases ha : a.1 = q
    · have hap : ¬ a.1 = p := fun hc => h (ha ▸ hc ▸ rfl)
      simp [ha, hap, h]
    · simp [ha]

lemma removeExpired_read (ckeys : List String) (cp E : String) (fs : DiskFS)
    (q : String) :
    (removeExpired ckeys cp E fs).read q =
      if ∃ k ∈ ckeys, k ≠ E ∧ jsStartsWith k (sliceTo E 8) = true ∧ q = pjoin cp k
      then none else fs.read q := by
  unfold removeExpired
  induction ckeys generalizing fs with
  | nil => simp
  | cons k rest ih =>
      simp only [List.foldl_cons]
      rw [ih]
      by_cases hk : k ≠ E ∧ jsStartsWith k (sliceTo E 8) = true
      · rw [if_pos hk]
        by_cases hq : q = pjoin cp k
        · have hcons : ∃ j ∈ k :: rest, j ≠ E ∧ jsStartsWith j (sliceTo E 8) = true ∧
              q = pjoin cp j := ⟨k, List.mem_cons_self k rest, hk.1, hk.2, hq⟩
          rw [if_pos hcons]
          split_ifs with hex
          · rfl
          · rw [DiskFS.read_remove, if_pos hq]
        · by_cases hex : ∃ j ∈ rest, j ≠ E ∧ jsStartsWith j (sliceTo E 8) = true ∧
              q = pjoin cp j
          · obtain ⟨j, hj, h1, h2, h3⟩ := hex
            have hex1 : ∃ j ∈ rest, j ≠ E ∧ jsStartsWith j (sliceTo E 8) = true ∧
                q = pjoin cp j := ⟨j, hj, h1, h2, h3⟩
            have hex2 : ∃ j ∈ k :: rest, j ≠ E ∧ jsStartsWith j (sliceTo E 8) = true ∧
                q = pjoin cp j := ⟨j, List.mem_cons_of_mem _ hj, h1, h2, h3⟩
            rw [if_pos hex1, if_pos hex2]
          · have hex2 : ¬ ∃ j ∈ k :: rest, j ≠ E ∧ jsStartsWith j (sliceTo E 8) = true ∧
                q = pjoin cp j := by
              rintro ⟨j, hj, h1, h2, h3⟩
              rcases List.mem_cons.mp hj with rfl | hj'
              · exact hq h3
              · exact hex ⟨j, hj', h1, h2, h3⟩
            rw [if_neg hex, if_neg hex2, DiskFS.read_remove, if_neg hq]
      · rw [if_neg hk]
        by_cases hex : ∃ j ∈ rest, j ≠ E ∧ jsStartsWith j (sliceTo E 8) = true ∧
            q = pjoin cp j
        · obtain ⟨j, hj, h1, h2, h3⟩ := hex
          have hex1 : ∃ j ∈ rest, j ≠ E ∧ jsStartsWith j (sliceTo E 8) = true ∧
              q = pjoin cp j := ⟨j, hj, h1, h2, h3⟩
          have hex2 : ∃ j ∈ k :: rest, j ≠ E ∧ jsStartsWith j (sliceTo E 8) = true ∧
              q = pjoin cp j := ⟨j, List.mem_cons_of_mem _ hj, h1, h2, h3⟩
          rw [if_pos hex1, if_pos hex2]
        · have hex2 : ¬ ∃ j ∈ k :: rest, j ≠ E ∧ jsStartsWith j (sliceTo E 8) = true ∧
              q = pjoin cp j := by
            rintro ⟨j, hj, h1, h2, h3⟩
            rcases List.mem_cons.mp hj with rfl | hj'
            · exact hk ⟨h1, h2⟩
            · exact hex ⟨j, hj', h1, h2, h3⟩
          rw [if_neg hex, if_neg hex2]

lemma jsStartsWith_slice_iff (k E : String) (h8 : 8 ≤ E.length) :
    jsStartsWith k (sliceTo E 8) = true ↔ sliceTo k 8 = sliceTo E 8 := by
  unfold jsStartsWith sliceTo
  rw [List.isPrefixOf_iff_prefix, List.prefix_iff_eq_take]
  have hlen : (E.data.take 8).length = 8 := by
    rw [List.length_take]
    exact Nat.min_eq_left h8
  rw [hlen]
  constructor
  · intro h
    exact congrArg String.mk h.symm
  · intro h
    have hd := congrArg String.data h
    simpa using hd.symm

/-- **C3** — After a deferred persist of cache entry `E` completes
successfully, the expiry sweep removes from disk every cache entry (from the
cache's key set) whose name shares `E`'s 8-character prefix, other than `E`
itself; every path whose entry name has a different prefix — and `E` itself —
is left untouched. -/
theorem expiry_removes_siblings (ckeys : List String)
    (cachePath cacheFileName : String) (fs : DiskFS)
    (h8 : 8 ≤ cacheFileName.length) :
    (∀ k ∈ ckeys, k ≠ cacheFileName → sliceTo k 8 = sliceTo cacheFileName 8 →
      (writeDeferDone ckeys cachePath cacheFileName true fs).read
        (pjoin cachePath k) = none) ∧
    (∀ k : String, sliceTo k 8 ≠ sliceTo cacheFileName 8 →
      (writeDeferDone ckeys cachePath cacheFileName true fs).read
        (pjoin cachePath k) = fs.read (pjoin cachePath k)) ∧
    (writeDeferDone ckeys cachePath cacheFileName true fs).read
        (pjoin cachePath cacheFileName) =
      fs.read (pjoin cachePath cacheFileName) := by
  have hw : writeDeferDone ckeys cachePath cacheFileName true fs =
      removeExpired ckeys cachePath cacheFileName fs := rfl
  rw [hw]
  refine ⟨?_, ?_, ?_⟩
  · intro k hk hne hsl
    rw [removeExpired_read]
    have hcond : ∃ j ∈ ckeys, j ≠ cacheFileName ∧
        jsStartsWith j (sliceTo cacheFileName 8) = true ∧
        pjoin cachePath k = pjoin cachePath j :=
      ⟨k, hk, hne, (jsStartsWith_slice_iff k _ h8).mpr hsl, rfl⟩
    rw [if_pos hcond]
  · intro k hsl
    rw [removeExpired_read]
    have hcond : ¬ ∃ j ∈ ckeys, j ≠ cacheFileName ∧
        jsStartsWith j (sliceTo cacheFileName 8) = true ∧
        pjoin cachePath k = pjoin cachePath j := by
      rintro ⟨j, hj, h1, h2, h3⟩
      have hkj : k = j := pjoin_right_inj cachePath k j h3
      subst hkj
      exact hsl ((jsStartsWith_slice_iff k _ h8).mp h2)
    rw [if_neg hcond]
  · rw [removeExpired_read]
    have hcond : ¬ ∃ j ∈ ckeys, j ≠ cacheFileName ∧
        jsStartsWith j (sliceTo cacheFileName 8) = true ∧
        pjoin cachePath cacheFileName = pjoin cachePath j := by
      rintro ⟨j, hj, h1, h2, h3⟩
      exact h1 (pjoin_right_inj cachePath cacheFileName j h3).symm
    rw [if_neg hcond]

/-- Concrete artifact tree for the C3 witness. -/
def fsC3 : DiskFS :=
  ⟨[("cache/abcdefgh11", "a"), ("cache/abcdefgh22", "b"),
    ("cache/zzzzzzzz33", "c")]⟩

/-- Witness for **C3** at a concrete input: the stale same-prefix sibling is
removed, the different-prefix entry and the fresh entry survive. -/
theorem expiry_removes_siblings_witness :
    (writeDeferDone ["abcdefgh11", "abcdefgh22", "zzzzzzzz33"] "cache"
        "abcdefgh11" true fsC3).read (pjoin "cache" "abcdefgh22") = none ∧
    (writeDeferDone ["abcdefgh11", "abcdefgh22", "zzzzzzzz33"] "cache"
        "abcdefgh11" true fsC3).read (pjoin "cache" "zzzzzzzz33") =
      fsC3.read (pjoin "cache" "zzzzzzzz33") ∧
    (writeDeferDone ["abcdefgh11", "abcdefgh22", "zzzzzzzz33"] "cache"
        "abcdefgh11" true fsC3).read (pjoin "cache" "abcdefgh11") =
      fsC3.read (pjoin "cache" "abcdefgh11") :=
  have h := expiry_removes_siblings ["abcdefgh11", "abcdefgh22", "zzzzzzzz33"]
    "cache" "abcdefgh11" fsC3 (by decide)
  ⟨h.1 "abcdefgh22" (by decide) (by decide) (by decide),
   h.2.1 "zzzzzzzz33" (by decide), h.2.2⟩

/-! ## Project-configuration resolution (`getInfo` / `readInfo`) -/

/-- A resolved project configuration (`Package` instance): scope directory,
version-range gate, merged options, and the cache path it owns (`none` models
the empty cache path of `cache: false`). -/
structure Pkg where
  dirPath : FPath
  range : String
  options : Options
  cachePath : Option FPath
deriving DecidableEq, Repr

/-- The process-wide shared state: the resolution memo
(`Package.state.cache`, with explicit `null` entries), the cache-path
registry (`shared.package.dir`), the root memo (`shared.package.root`), and
the module-state flags toggled around activation-script loading. -/
structure Shared where
  cache : List (FPath × Option Pkg)
  dir : List (Option FPath × CacheData)
  root : List (FPath × FPath)
  parseOnly : Bool
  parsing : Bool
deriving DecidableEq, Repr

/-- Combined mutable world: filesystem plus shared state. -/
structure St where
  fs : FS
  sh : Shared
deriving DecidableEq, Repr

def lookupCache (m : List (FPath × Option Pkg)) (d : FPath) : Option (Option Pkg) :=
  (m.find? (fun e => e.1 = d)).map (fun e => e.2)

def setCacheEntry (m : List (FPath × Option Pkg)) (d : FPath) (v : Option Pkg) :
    List (FPath × Option Pkg) :=
  if m.any (fun e => e.1 = d) then m.map (fun e => if e.1 = d then (d, v) else e)
  else m ++ [(d, v)]

def lookupDir (m : List (Option FPath × CacheData)) (k : Option FPath) :
    Option CacheData :=
  (m.find? (fun e => e.1 = k)).map (fun e => e.2)

def setDirEntry (m : List (Option FPath × CacheData)) (k : Option FPath)
    (v : CacheData) : List (Option FPath × CacheData) :=
  if m.any (fun e => e.1 = k) then m.map (fun e => if e.1 = k then (k, v) else e)
  else m ++ [(k, v)]

def lookupRoot (m : List (FPath × FPath)) (d : FPath) : Option FPath :=
  (m.find? (fun e => e.1 = d)).map (fun e => e.2)

def setRootEntry (m : List (FPath × FPath)) (d : FPath) (v : FPath) :
    List (FPath × FPath) :=
  if m.any (fun e => e.1 = d) then m.map (fun e => if e.1 = d then (d, v) else e)
  else m ++ [(d, v)]

def St.setCache (st : St) (d : FPath) (v : Option Pkg) : St :=
  { st with sh := { st.sh with cache := setCacheEntry st.sh.cache d v } }

def St.setFlags (st : St) (po pa : Bool) : St :=
  { st with sh := { st.sh with parseOnly := po, parsing := pa } }

/-- Outcome of a stateful step: a value, a raised option error, or fuel
exhaustion of the step-indexed recursion. -/
inductive Out (α : Type) where
  | ok (a : α)
  | err (e : OptErr)
  | spin
deriving DecidableEq, Repr

/-- Sequence two stateful steps, propagating errors and fuel exhaustion. -/
def bindOut {α β : Type} (r : Out α × St) (f : α → St → Out β × St) : Out β × St :=
  match r with
  | (.ok a, st) => f a st
  | (.err e, st) => (.err e, st)
  | (.spin, st) => (.spin, st)

/-- The cache-path derivation of the `Package` constructor: a string `cache`
option is resolved against the directory, `false` means no cache path, and
anything else selects the default `node_modules/.cache/esm` location. -/
def pkgCachePath (dirPath : FPath) (options : Options) : Option FPath :=
  match options.cache with
  | .str s => some (resolvePath dirPath s)
  | c =>
      if c = .bool false then none
      else some (dirPath ++ ["node_modules", ".cache", "esm"])

/-- The `Package` constructor: merge options, derive the cache path, and
load (or reuse) the cache keyed by that path in the shared registry. -/
def mkPackage (env : Env) (st : St) (dirPath : FPath) (range : String)
    (optVal : JSValue) : Out Pkg × St :=
  match createOptions env.DEVELOPMENT optVal with
  | .error e => (.err e, st)
  | .ok options =>
      let cachePath : Option FPath := pkgCachePath dirPath options
      match lookupDir st.sh.dir cachePath with
      | some _ => (.ok ⟨dirPath, range, options, cachePath⟩, st)
      | none =>
          match cachePath with
          | none =>
              (.ok ⟨dirPath, range, options, none⟩,
               { st with sh :=
                  { st.sh with dir := setDirEntry st.sh.dir none ⟨none, [], none⟩ } })
          | some cp =>
              let r := loadCacheData env st.fs cp
              (.ok ⟨dirPath, range, options, some cp⟩,
               ⟨r.1, { st.sh with dir := setDirEntry st.sh.dir (some cp) r.2 }⟩)

/-- `findRoot`: walk to the nearest ancestor that is a manifest root, or whose
parent is the dependency-container directory; `none` models the empty-string
result at the filesystem root. -/
def findRoot (fs : FS) (d : FPath) : Option FPath :=
  if basenameP d = "node_modules" || fs.isFile (d ++ ["package.json"]) then some d
  else
    match d with
    | [] => none
    | x :: xs =>
        let parentPath := dirnameP (x :: xs)
        if basenameP parentPath = "node_modules" then some (x :: xs)
        else findRoot fs parentPath
termination_by d.length
decreasing_by
  simp only [dirnameP, List.length_dropLast, List.length_cons]
  omega

/-- `getRoot`: memoised `findRoot` (a falsy cached empty path is recomputed,
mirroring the truthiness check). -/
def getRootM (fs : FS) (sh : Shared) (d : FPath) : FPath × Shared :=
  match lookupRoot sh.root d with
  | some r =>
      if r = [] then
        let rr := (findRoot fs d).getD d
        (rr, { sh with root := setRootEntry sh.root d rr })
      else (r, sh)
  | none =>
      let rr := (findRoot fs d).getD d
      (rr, { sh with root := setRootEntry sh.root d rr })

/-- `getRange(json, name)`: a declared `esm` constraint under the dependency
field `name`, passed through semver's `validRange`. -/
def getRange (env : Env) (json : JSValue) (name : String) : Option String :=
  if json.jhas name then
    let object := json.jget name
    if object.jhas "esm" then env.validRange (object.jget "esm")
    else none
  else none

/-- JavaScript truthiness of a `getRange` result (the empty string is
falsy). -/
def truthyRange : Option String → Bool
  | some s => decide (s ≠ "")
  | none => false

/-- Modelled from the spec: `module/_find-path.js` is not under `src/`; per
the spec the structured-text activation file is searched "with file
extensions searched in a fixed preference order" — the declared
`searchExts = [".mjs", ".js", ".json"]`. -/
def findPathEsmrc (fs : FS) (d : FPath) : Option FPath :=
  if fs.isFile (d ++ [".esmrc.mjs"]) then some (d ++ [".esmrc.mjs"])
  else if fs.isFile (d ++ [".esmrc.js"]) then some (d ++ [".esmrc.js"])
  else if fs.isFile (d ++ [".esmrc.json"]) then some (d ++ [".esmrc.json"])
  else none

/-- The activation-file discovery prefix of `readInfo` (lines 426-458):
read `.esmrc`, otherwise search the extension variants; a `.json` variant is
parsed, a script variant is loaded through the module system after
constructing and memoising an eager `Package` with the all-versions range and
suppressed parse flags.  Returns (optionsFound, options, eager package). -/
def activationScan (env : Env) (st : St) (dirPath : FPath) :
    Out (Bool × JSValue × Option Pkg) × St :=
  let r0 := st.fs.read (dirPath ++ [".esmrc"])
  let found0 := r0.isSome
  let opts0 : JSValue := r0.getD .vnull
  let optionsPath := if found0 then none else findPathEsmrc st.fs dirPath
  match optionsPath with
  | none => (.ok (found0, opts0, none), st)
  | some p =>
      if extnameS (p.getLastD "") = ".json" then
        (.ok (true, (st.fs.read p).getD .vnull, none), st)
      else
        let saved := (st.sh.parseOnly, st.sh.parsing)
        let stA := st.setFlags false false
        match mkPackage env stA dirPath RANGE_ALL .undef with
        | (.ok pkg, stB) =>
            let stC := stB.setCache dirPath (some pkg)
            match createOptions env.DEVELOPMENT (env.loadESM p) with
            | .ok o2 =>
                let pkg2 := { pkg with options := o2 }
                let stD := stC.setCache dirPath (some pkg2)
                (.ok (true, opts0, some pkg2), stD.setFlags saved.1 saved.2)
            | .error e => (.err e, stC.setFlags saved.1 saved.2)
        | (.err e, stB) => (.err e, stB.setFlags saved.1 saved.2)
        | (.spin, stB) => (.spin, stB)

mutual

/-- `getInfo(dirPath, force)` — the memoised resolver.  The memo answers
unless `force` is set and the memoised value is `null`; a dependency
container directory memoises `null`; otherwise `readInfo` runs, falling back
to the parent directory on `null`, then (under `force`) to a forced re-read,
and the result is memoised.  `fuel` step-indexes the mutual recursion (the
code can re-enter itself through the parent walk). -/
def getInfo (env : Env) (st : St) (dirPath : FPath) (force : Bool) (fuel : Nat) :
    Out (Option Pkg) × St :=
  match fuel with
  | 0 => (.spin, st)
  | n + 1 =>
      let memoHit : Option (Option Pkg) :=
        match lookupCache st.sh.cache dirPath with
        | some pkg => if force = false || pkg.isSome then some pkg else none
        | none => none
      match memoHit with
      | some pkg => (.ok pkg, st)
      | none =>
          if basenameP dirPath = "node_modules" then
            (.ok none, st.setCache dirPath none)
          else
            bindOut (readInfo env st dirPath false n) (fun pkg0 st1 =>
              bindOut
                (if pkg0 = none then
                   if dirnameP dirPath ≠ dirPath then
                     getInfo env st1 (dirnameP dirPath) false n
                   else (.ok none, st1)
                 else (.ok pkg0, st1))
                (fun pkg1 st2 =>
                  bindOut
                    (if force = true ∧ pkg1 = none then
                       readInfo env st2 dirPath true n
                     else (.ok pkg1, st2))
                    (fun pkg2 st3 => (.ok pkg2, st3.setCache dirPath pkg2))))
termination_by structural fuel

/-- `readInfo(dirPath, force)` — one directory's configuration read: the
activation-file scan, the manifest read (with the dev-only short circuit and
the parent fallback when the manifest is absent but an activation file was
found), the version-range determination, and construction of the resulting
`Package`. -/
def readInfo (env : Env) (st : St) (dirPath : FPath) (force : Bool) (fuel : Nat) :
    Out (Option Pkg) × St :=
  match fuel with
  | 0 => (.spin, st)
  | n + 1 =>
      bindOut (activationScan env st dirPath) (fun t st1 =>
        let found1 := t.1
        let opts1 := t.2.1
        let pkgE := t.2.2
        let pkgJSON := st1.fs.read (dirPath ++ ["package.json"])
        if force = false ∧ pkgJSON = none ∧ found1 = false then
          (.ok none, st1)
        else
          bindOut
            (if force = false ∧ pkgJSON = none then
               bindOut (getInfo env st1 (dirnameP dirPath) false n)
                 (fun r st' => (.ok (some r), st'))
             else (.ok none, st1))
            (fun parentPkg st2 =>
              let step473 : Bool × Bool × JSValue :=
                match pkgJSON with
                | some pv =>
                    if found1 = false then
                      if pv.jhas "esm" then (true, true, pv.jget "esm")
                      else (true, false, opts1)
                    else (false, true, opts1)
                | none => (false, found1, opts1)
              let pkgParsed1 := step473.1
              let found2 := step473.2.1
              let opts2 := step473.2.2
              let rangeRes : Option String :=
                if force = true then some RANGE_ALL
                else
                  match parentPkg with
                  | some (some pp) => some pp.range
                  | _ =>
                      let pv := pkgJSON.getD .vnull
                      let dep := getRange env pv "dependencies"
                      let r0 :=
                        if truthyRange dep then dep
                        else getRange env pv "peerDependencies"
                      match r0 with
                      | none =>
                          if found2 = true ∨
                              truthyRange (getRange env pv "devDependencies") = true
                          then some RANGE_ALL else none
                      | some s => some s
              let pkgParsed2 : Bool :=
                pkgParsed1 ||
                  (!force &&
                    (match parentPkg with
                     | some (some _) => false
                     | _ => true) &&
                    !pkgParsed1 && decide (pkgJSON ≠ none))
              match rangeRes with
              | none => (.ok none, st2)
              | some range =>
                  match pkgE with
                  | some pkg =>
                      let pkg2 := { pkg with range := range }
                      (.ok (some pkg2), st2.setCache dirPath (some pkg2))
                  | none =>
                      let opts3 :=
                        if opts2 = .bool true ∨ found2 = false then env.OPTIONS
                        else opts2
                      let rootStep : FPath × St :=
                        if pkgParsed2 = false ∧ pkgJSON = none then
                          let rs := getRootM st2.fs st2.sh dirPath
                          (rs.1, { st2 with sh := rs.2 })
                        else (dirPath, st2)
                      match mkPackage env rootStep.2 rootStep.1 range opts3 with
                      | (.ok pkg, st3) => (.ok (some pkg), st3)
                      | (.err e, st3) => (.err e, st3)
                      | (.spin, st3) => (.spin, st3)))
termination_by structural fuel

end

/-! ## Claim C7 — memoisation of resolution -/

@[simp] lemma bindOut_ok {α β : Type} (a : α) (st : St) (f : α → St → Out β × St) :
    bindOut (.ok a, st) f = f a st := rfl

@[simp] lemma bindOut_err {α β : Type} (e : OptErr) (st : St) (f : α → St → Out β × St) :
    bindOut (.err e, st) f = (.err e, st) := rfl

@[simp] lemma bindOut_spin {α β : Type} (st : St) (f : α → St → Out β × St) :
    bindOut (.spin, st) f = (.spin, st) := rfl

lemma bindOut_ok_inv {α β : Type} (r : Out α × St) (f : α → St → Out β × St)
    (v : β) (st' : St) (h : bindOut r f = (.ok v, st')) :
    ∃ a st1, r = (.ok a, st1) ∧ f a st1 = (.ok v, st') := by
  rcases r with ⟨o, st0⟩
  cases o with
  | ok a => exact ⟨a, st0, rfl, h⟩
  | err e => simp [bindOut] at h
  | spin => simp [bindOut] at h

lemma find_set_mem_gen {α β : Type} [DecidableEq α] (m : List (α × β)) (k : α)
    (v : β) (h : m.any (fun e => e.1 = k) = true) :
    (m.map (fun e => if e.1 = k then (k, v) else e)).find? (fun e => e.1 = k) =
      some (k, v) := by
  induction m with
  | nil => simp at h
  | cons e rest ih =>
      by_cases he : e.1 = k
      · simp [he]
      · have h' : rest.any (fun e => e.1 = k) = true := by simpa [he] using h
        simp [he, ih h']

lemma lookupCache_set_self (m : List (FPath × Option Pkg)) (d : FPath)
    (v : Option Pkg) : lookupCache (setCacheEntry m d v) d = some v := by
  unfold lookupCache setCacheEntry
  split_ifs with h
  · rw [find_set_mem_gen m d v h]
    rfl
  · have hnone : m.find? (fun e => e.1 = d) = none := by
      rw [List.find?_eq_none]
      intro x hx hc
      exact h (List.any_eq_true.mpr ⟨x, hx, hc⟩)
    rw [List.find?_append, hnone]
    simp

lemma getInfo_memo_hit (env : Env) (st : St) (d : FPath) (v : Option Pkg)
    (force : Bool) (m : Nat) (h : lookupCache st.sh.cache d = some v)
    (hf : force = false ∨ v.isSome = true) :
    getInfo env st d force (m + 1) = (.ok v, st) := by
  have hcond : (force = false || v.isSome) = true := by
    rcases hf with rfl | hs
    · simp
    · simp [hs]
  simp only [getInfo, h, hcond, if_true]

/-- **C7** — Resolution results are memoised per directory path: a completed
`getInfo(dirPath, false)` call stores its result (even `null`) in the
process-wide memo, and a repeat call returns exactly that value with the
state unchanged (first conjunct); the memo answers directly — it is only
bypassed when `force` is set and the memoised value is `null` (second
conjunct). -/
theorem resolution_memoised (env : Env) :
    (∀ (st st' : St) (d : FPath) (v : Option Pkg) (fuel m : Nat),
      getInfo env st d false fuel = (.ok v, st') →
      lookupCache st'.sh.cache d = some v ∧
        getInfo env st' d false (m + 1) = (.ok v, st')) ∧
    (∀ (st : St) (d : FPath) (v : Option Pkg) (force : Bool) (m : Nat),
      lookupCache st.sh.cache d = some v →
      (force = false ∨ v.isSome = true) →
      getInfo env st d force (m + 1) = (.ok v, st)) := by
  constructor
  · intro st st' d v fuel m h
    have hmemo : lookupCache st'.sh.cache d = some v := by
      cases fuel with
      | zero => simp [getInfo] at h
      | succ n =>
          rw [getInfo] at h
          cases hl : lookupCache st.sh.cache d with
          | some pkg =>
              rw [hl] at h
              simp at h
              obtain ⟨hv, hst⟩ := h
              rw [← hst, ← hv]
              exact hl
          | none =>
              rw [hl] at h
              by_cases hnm : basenameP d = "node_modules"
              · rw [if_pos hnm] at h
                simp at h
                obtain ⟨hv, hst⟩ := h
                rw [← hst, ← hv]
                exact lookupCache_set_self _ _ _
              · rw [if_neg hnm] at h
                obtain ⟨p0, st1, _, h1⟩ := bindOut_ok_inv _ _ _ _ h
                obtain ⟨p1, st2, _, h2⟩ := bindOut_ok_inv _ _ _ _ h1
                obtain ⟨p2, st3, _, h3⟩ := bindOut_ok_inv _ _ _ _ h2
                simp at h3
                obtain ⟨hv, hst⟩ := h3
                rw [← hst, ← hv]
                exact lookupCache_set_self _ _ _
    exact ⟨hmemo, getInfo_memo_hit env st' d v false m hmemo (Or.inl rfl)⟩
  · intro st d v force m h hf
    exact getInfo_memo_hit env st d v force m h hf

/-- Environment shared by the resolution witnesses/counterexample. -/
def envC1 : Env :=
  ⟨false, false, .undef, "3.2.4", fun _ => .undef,
   fun v => match v with
     | .str s => if s = "" then none else some s
     | _ => none⟩

/-- Empty world for the C7 witness. -/
def stC7 : St := ⟨⟨[]⟩, ⟨[], [], [], false, false⟩⟩

/-- The state after a first resolution of `/a` in the empty world. -/
def stC7b : St := (getInfo envC1 stC7 ["a"] false 4).2

/-- Witness for **C7**: the repeat call returns the memoised `null` without
touching the state. -/
theorem resolution_memoised_witness :
    getInfo envC1 stC7b ["a"] false 1 = (.ok none, stC7b) :=
  ((resolution_memoised envC1).1 stC7 stC7b ["a"] none 4 0 (by decide)).2

/-! ## Claim C1 — dev-only dependency declarations -/

/-- The version range carried by a successful, non-null resolution result. -/
def pkgRangeOf : Out (Option Pkg) → Option String
  | .ok (some p) => some p.range
  | _ => none

/-- World of the C1 counterexample: a lone manifest declaring the tool only
under `devDependencies`, and no activation file anywhere. -/
def stC1 : St :=
  ⟨⟨[(["p", "package.json"],
      .obj [("devDependencies", .obj [("esm", .str "3.x")])])]⟩,
   ⟨[], [], [], false, false⟩⟩

/-- Counterexample to **C1** as stated: with a dev-only declaration and no
activation file, `resolve(dirPath, false)` does **not** return `null` — it
returns a `ProjectConfig` whose range is the all-versions sentinel (the code
takes `optionsFound || getRange(devDependencies)`, an OR, where the claim
asserts the dev-only declaration alone does not activate). -/
theorem devdeps_only_counterexample :
    (getInfo envC1 stC1 ["p"] false 3).1 ≠ .ok none ∧
    pkgRangeOf (getInfo envC1 stC1 ["p"] false 3).1 = some RANGE_ALL := by
  decide

lemma mkPackage_ok_range (env : Env) (st : St) (d : FPath) (range : String)
    (v : JSValue) (o : Options) (h : createOptions env.DEVELOPMENT v = .ok o) :
    ∃ p st', mkPackage env st d range v = (.ok p, st') ∧ p.range = range := by
  unfold mkPackage
  rw [h]
  dsimp only
  cases hl : lookupDir st.sh.dir (pkgCachePath d o) with
  | some cd => exact ⟨_, _, rfl, rfl⟩
  | none =>
      cases hcp : pkgCachePath d o with
      | none => exact ⟨_, _, rfl, rfl⟩
      | some cp => exact ⟨_, _, rfl, rfl⟩

lemma activationScan_none (env : Env) (st : St) (d : FPath)
    (h1 : st.fs.read (d ++ [".esmrc"]) = none)
    (h2 : findPathEsmrc st.fs d = none) :
    activationScan env st d = (.ok (false, .vnull, none), st) := by
  simp [activationScan, h1, h2]

lemma activationScan_esmrc (env : Env) (st : St) (d : FPath) (C : JSValue)
    (h1 : st.fs.read (d ++ [".esmrc"]) = some C) :
    activationScan env st d = (.ok (true, C, none), st) := by
  simp [activationScan, h1]

@[simp] lemma truthyRange_none : truthyRange none = false := rfl

lemma readInfo_devdeps_noact (env : Env) (st : St) (d : FPath) (J : JSValue)
    (n : Nat) (o : Options)
    (hrc : st.fs.read (d ++ [".esmrc"]) = none)
    (hfind : findPathEsmrc st.fs d = none)
    (hpkg : st.fs.read (d ++ ["package.json"]) = some J)
    (hesm : J.jhas "esm" = false)
    (hdep : getRange env J "dependencies" = none)
    (hpeer : getRange env J "peerDependencies" = none)
    (hdev : truthyRange (getRange env J "devDependencies") = true)
    (ho : createOptions env.DEVELOPMENT env.OPTIONS = .ok o) :
    ∃ p st', readInfo env st d false (n + 1) = (.ok (some p), st') ∧
      p.range = RANGE_ALL := by
  obtain ⟨p, st', hmk, hrg⟩ := mkPackage_ok_range env st d RANGE_ALL env.OPTIONS o ho
  refine ⟨p, st', ?_, hrg⟩
  simp only [readInfo]
  rw [activationScan_none env st d hrc hfind]
  simp only [bindOut_ok]
  simp [hpkg, hesm, hdep, hpeer, hdev, hmk]

lemma readInfo_devdeps_esmrc (env : Env) (st : St) (d : FPath) (J C : JSValue)
    (n : Nat) (oC : Options)
    (hrc : st.fs.read (d ++ [".esmrc"]) = some C)
    (hpkg : st.fs.read (d ++ ["package.json"]) = some J)
    (hdep : getRange env J "dependencies" = none)
    (hpeer : getRange env J "peerDependencies" = none)
    (hC : C ≠ .bool true)
    (hoC : createOptions env.DEVELOPMENT C = .ok oC) :
    ∃ p st', readInfo env st d false (n + 1) = (.ok (some p), st') ∧
      p.range = RANGE_ALL := by
  obtain ⟨p, st', hmk, hrg⟩ := mkPackage_ok_range env st d RANGE_ALL C oC hoC
  refine ⟨p, st', ?_, hrg⟩
  simp only [readInfo]
  rw [activationScan_esmrc env st d C hrc]
  simp only [bindOut_ok]
  simp [hpkg, hdep, hpeer, hC, hmk]

/-- **C1 (amended)** — For every directory whose manifest declares the tool
only under `devDependencies` (no `dependencies`/`peerDependencies`
constraint, no manifest `esm` field), `resolve(dirPath, false)` returns a
`ProjectConfig` whose `versionRange` is the all-versions sentinel — whether
or not an activation file is present.  (The claim asserted `null` for the
no-activation-file case; the code grants `RANGE_ALL` from
`optionsFound || getRange(devDependencies)`.) -/
theorem devdeps_only_resolution (env : Env) (st : St) (d : FPath) (J : JSValue)
    (n : Nat)
    (hmemo : lookupCache st.sh.cache d = none)
    (hnm : basenameP d ≠ "node_modules")
    (hpkg : st.fs.read (d ++ ["package.json"]) = some J)
    (hesm : J.jhas "esm" = false)
    (hdep : getRange env J "dependencies" = none)
    (hpeer : getRange env J "peerDependencies" = none)
    (hdev : truthyRange (getRange env J "devDependencies") = true) :
    (∀ o : Options, st.fs.read (d ++ [".esmrc"]) = none →
      findPathEsmrc st.fs d = none →
      createOptions env.DEVELOPMENT env.OPTIONS = .ok o →
      pkgRangeOf (getInfo env st d false (n + 2)).1 = some RANGE_ALL) ∧
    (∀ (C : JSValue) (oC : Options), st.fs.read (d ++ [".esmrc"]) = some C →
      C ≠ .bool true →
      createOptions env.DEVELOPMENT C = .ok oC →
      pkgRangeOf (getInfo env st d false (n + 2)).1 = some RANGE_ALL) := by
  constructor
  · intro o hrc hfind ho
    obtain ⟨p, st', hread, hrg⟩ :=
      readInfo_devdeps_noact env st d J n o hrc hfind hpkg hesm hdep hpeer hdev ho
    simp only [getInfo, hmemo]
    rw [if_neg hnm, hread]
    simp [pkgRangeOf, hrg]
  · intro C oC hrc hC hoC
    obtain ⟨p, st', hread, hrg⟩ :=
      readInfo_devdeps_esmrc env st d J C n oC hrc hpkg hdep hpeer hC hoC
    simp only [getInfo, hmemo]
    rw [if_neg hnm, hread]
    simp [pkgRangeOf, hrg]

/-- The auto-defaulted options record (`createOptions(undefined)`), used by
the C1 witness. -/
def oAuto : Options :=
  match createOptions false .undef with
  | .ok o => o
  | .error _ => default

/-- Witness for **C1 (amended)** at the counterexample's concrete world. -/
theorem devdeps_only_resolution_witness :
    pkgRangeOf (getInfo envC1 stC1 ["p"] false 3).1 = some RANGE_ALL :=
  (devdeps_only_resolution envC1 stC1 ["p"]
      (.obj [("devDependencies", .obj [("esm", .str "3.x")])]) 1
      (by decide) (by decide) (by decide) (by decide) (by decide) (by decide)
      (by decide)).1
    oAuto (by decide) (by decide) (by decide)
